import Mathlib

/-!
Verification of the Gem Hunter constraint-encoding and search engine.

This file gives a shallow embedding, in Lean, of the algorithmic core of the
repository: the cell/grid data model (`utils/solver_utils.py`,
`cnf_generator.py`), the `MapToCNF` cardinality encoder
(`cnf_generator.py`), the DIMACS-driven brute-force and backtracking solvers
(`solvers/bruteforce_solver.py`, `solvers/backtracking_solvers.py`), the
three-state SAT encoding (`solvers/sat_solver.py`), and the classical
solver's gem-inference fixed point and solution validator
(`solvers/classical_solvers.py`).

The repository's `consts.py` module is not part of the sources; where one of
its values matters it is modelled from the spec and marked as such in the
doc comment of the corresponding definition.
-/

namespace GemHunter

/-- Modelled from the spec: `consts.py` is absent from the sources.  The spec
(§6) fixes the engine's cell tokens to be number tokens and a small set of
distinct sentinel tokens for Unknown/Trap/Gem; puzzle files handed to the
encoder contain only number tokens and the Unknown sentinel
(`consts.EMPTY_CELL`).  Encoder-side cells are therefore one of `empty`
(the `consts.EMPTY_CELL` sentinel) or `num k` (a numeric token, read by
`int(cell)` in the Python source). -/
inductive Cell where
  | empty : Cell
  | num (k : Nat) : Cell
deriving DecidableEq, Repr

/-- Modelled from the spec: solver-side cells (`consts.py` absent).  Solution
grids hold the `consts.EMPTY_CELL`, `consts.TRAP_CELL` and `consts.GEM_CELL`
sentinels together with the number tokens copied from the puzzle; the spec
(§3, §6) requires the sentinels to be distinct tokens, which the separate
constructors reflect. -/
inductive SCell where
  | empty : SCell
  | trap : SCell
  | gem : SCell
  | num (k : Nat) : SCell
deriving DecidableEq, Repr

/-- Source `utils/solver_utils.py :: flatten`: convert a cell position to a variable
number, `row * n + col + consts.CNF_STARTING_VAR`.  Modelled from the spec:
`consts.CNF_STARTING_VAR` lives in the absent `consts.py`; the spec (§3)
defines the variable of a cell as `v = row * width + col + 1`, so the
starting constant is modelled as `1`. -/
def flatten (n row col : Nat) : Int :=
  ((row * n + col + 1 : Nat) : Int)

/-- The variable number of `flatten` as a natural number (its absolute
value); used to relate literals to positions. -/
def flattenN (n row col : Nat) : Nat :=
  row * n + col + 1

/-- Source `utils/solver_utils.py :: unflatten`: convert a variable number back to a
cell position `(row, col)` by subtracting `consts.CNF_STARTING_VAR`
(modelled as `1`, see `flatten`) and taking floor-division and modulus by
`n`; Python's `//` and `%` on integers are floor division and the
corresponding nonnegative remainder, i.e. `Int.fdiv` and `Int.emod`. -/
def unflatten (n : Nat) (var : Int) : Int × Int :=
  ((var - 1).fdiv n, (var - 1).emod n)

/-- Source `utils/solver_utils.py :: get_neighbors`: the valid 8-neighbourhood of
`(i, j)` clipped to `height × width`.  The Python double loop over
`di, dj ∈ [-1, 0, 1]` with the `di == dj == 0` case skipped is unrolled into
the fixed offset list below, preserving the iteration order. -/
def get_neighbors (i j height width : Nat) : List (Nat × Nat) :=
  ([(-1, -1), (-1, 0), (-1, 1), (0, -1), (0, 1), (1, -1), (1, 0), (1, 1)] :
      List (Int × Int)).filterMap fun d =>
    let ni : Int := (i : Int) + d.1
    let nj : Int := (j : Int) + d.2
    if 0 ≤ ni ∧ ni < (height : Int) ∧ 0 ≤ nj ∧ nj < (width : Int) then
      some (ni.toNat, nj.toNat)
    else none

/-- Cell lookup `self.grid[row][col]` for encoder grids.  The Python source
indexes only positions inside the `n × n` grid; the out-of-range default is
never exercised under the well-formedness hypotheses used below. -/
def cellAt (g : List (List Cell)) (r c : Nat) : Cell :=
  (g.getD r []).getD c Cell.empty

/-- An encoder grid is well formed for side `n` when it is an `n × n` array,
matching `MapToCNF`'s iteration over `range(self.n) × range(self.n)`. -/
def WFGrid (g : List (List Cell)) (n : Nat) : Prop :=
  g.length = n ∧ ∀ row ∈ g, row.length = n

/-- Source `MapToCNF.convert_to_cnf`: the unassigned (empty) neighbours of a cell,
`[(r, c) for r, c in neighbors if self.grid[r][c] == consts.EMPTY_CELL]`. -/
def unassignedNeighbors (g : List (List Cell)) (n row col : Nat) :
    List (Nat × Nat) :=
  (get_neighbors row col n n).filter fun p => cellAt g p.1 p.2 = Cell.empty

/-- Source `MapToCNF.convert_to_cnf`: the trap variables of the unassigned
neighbours of a cell. -/
def neighborVars (g : List (List Cell)) (n row col : Nat) : List Int :=
  (unassignedNeighbors g n row col).map fun p => flatten n p.1 p.2

/-- The clauses `MapToCNF.convert_to_cnf` inserts into `unique_clauses_set`
while processing the number cell at `(row, col)` carrying value `k`
(`cell_int` in the source): the unit clause `{-cell_var}`, then the branch
on `cell_int` and the number of unassigned neighbours.  `itertools.combinations`
enumerates the length-`j` subsequences of its input, which is
`List.sublistsLen j` up to enumeration order; the clauses land in a Python
`set` of `frozenset`s, modelled as a `Finset (Finset Int)`.  The comparisons
with `consts.ZERO_VALUE` and `consts.ZERO_LENGTH` (absent `consts.py`) are
modelled from the spec's branch structure (§4.1) as comparisons with `0`. -/
def cellClauses (g : List (List Cell)) (n row col k : Nat) :
    Finset (Finset Int) :=
  let nvars := neighborVars g n row col
  let m := (unassignedNeighbors g n row col).length
  insert {-flatten n row col}
    (if k = 0 then
      (nvars.map fun v => ({-v} : Finset Int)).toFinset
    else if m = 0 then ∅
    else if m = k then
      (nvars.map fun v => ({v} : Finset Int)).toFinset
    else if m > k then
      insert nvars.toFinset
        (((List.sublistsLen (k + 1) nvars).map fun comb =>
            (comb.map fun v => -v).toFinset).toFinset ∪
          ((List.sublistsLen (m - k + 1) nvars).map fun comb =>
            comb.toFinset).toFinset)
    else ∅)

/-- Source `MapToCNF.convert_to_cnf`: the full deduplicated clause set, the union
over all cells of the grid of the clauses the loop body inserts; empty cells
are skipped (`continue`). -/
def convert_to_cnf (g : List (List Cell)) (n : Nat) : Finset (Finset Int) :=
  (Finset.range n).biUnion fun row =>
    (Finset.range n).biUnion fun col =>
      match cellAt g row col with
      | Cell.empty => ∅
      | Cell.num k => cellClauses g n row col k

/-- Source `BruteForceSolver.check_solution` (and clause satisfaction generally): a
positive literal is satisfied when its variable is assigned `True`, a
negative literal when its variable is assigned `False`. -/
def litSatisfied (a : Nat → Bool) (lit : Int) : Bool :=
  if 0 < lit then a lit.natAbs else !a lit.natAbs

/-- Satisfaction of one (deduplicated) clause: some literal is satisfied. -/
def ClauseSat (a : Nat → Bool) (C : Finset Int) : Prop :=
  ∃ l ∈ C, litSatisfied a l = true

instance (a : Nat → Bool) (C : Finset Int) : Decidable (ClauseSat a C) :=
  Finset.decidableExistsAndFinset

/-- Cell lookup for solver-side grids (`puzzle[i][j]`, `solution_grid[i][j]`);
indexing in the sources stays inside the `height × width` bounds. -/
def scellAt (g : List (List SCell)) (r c : Nat) : SCell :=
  (g.getD r []).getD c SCell.empty

/-- A solver grid is well formed for `height h`, `width w`. -/
def WFSGrid (g : List (List SCell)) (h w : Nat) : Prop :=
  g.length = h ∧ ∀ row ∈ g, row.length = w

instance decWFSGrid (g : List (List SCell)) (h w : Nat) :
    Decidable (WFSGrid g h w) := by
  unfold WFSGrid
  infer_instance

/-- The `empty_cells` list built in the solvers' constructors: all positions
holding `consts.EMPTY_CELL`, collected in row-major order. -/
def emptyCells (g : List (List SCell)) (h w : Nat) : List (Nat × Nat) :=
  (List.range h).flatMap fun i =>
    (List.range w).filterMap fun j =>
      if scellAt g i j = SCell.empty then some (i, j) else none

/-- Source `BruteForceSolver.check_solution` (`solvers/bruteforce_solver.py`): an
assignment satisfies the clause list when every clause has a satisfied
literal. -/
def check_solution (clauses : List (List Int)) (a : Nat → Bool) : Bool :=
  clauses.all fun cl => cl.any fun lit => litSatisfied a lit

/-- The assignment `BruteForceSolver.solve` builds for one mask: every
variable `1 .. width*height` starts at `False`, then the variable
`row * width + col + 1` of the `idx`-th empty cell is set to bit `idx` of
the mask. -/
def maskAssign (empties : List (Nat × Nat)) (width mask : Nat) : Nat → Bool :=
  fun v =>
    match empties.enum.find? fun p => p.2.1 * width + p.2.2 + 1 = v with
    | some p => mask.testBit p.1
    | none => false

/-- The solution grid `BruteForceSolver.solve` returns on success: each empty
cell becomes `TRAP_CELL` when its mask bit is set and `GEM_CELL` otherwise;
all other cells keep their puzzle value. -/
def bfGrid (puzzle : List (List SCell)) (empties : List (Nat × Nat))
    (mask : Nat) : List (List SCell) :=
  puzzle.enum.map fun ir =>
    ir.2.enum.map fun jc =>
      match empties.enum.find? fun p => p.2 = (ir.1, jc.1) with
      | some p => if mask.testBit p.1 then SCell.trap else SCell.gem
      | none => jc.2

/-- Source `BruteForceSolver.solve` (`solvers/bruteforce_solver.py`): scan the masks
`0, 1, 2, …` in order and return the decoded grid of the first mask whose
assignment satisfies every clause.  The loop body checks a mask, then
increments `combinations_count` and breaks once it reaches the cap, so the
masks actually checked are `0 .. min (2^m) (max cap 1) - 1`.  Modelled from
the spec: the cap `consts.MAX_COMBINATION_COUNT` lives in the absent
`consts.py`; the spec (§4.3, §5) describes it as a configured ceiling, so it
is a parameter here.  On failure — truncated or exhausted alike — the
source returns its untouched copy of the puzzle and `False`. -/
def bf_solve (clauses : List (List Int)) (puzzle : List (List SCell))
    (h w cap : Nat) : List (List SCell) × Bool :=
  let empties := emptyCells puzzle h w
  let total := 2 ^ empties.length
  let checked := min total (max cap 1)
  match (List.range checked).find? fun mask =>
      check_solution clauses (maskAssign empties w mask) with
  | some mask => (bfGrid puzzle empties mask, true)
  | none => (puzzle, false)

/-- One clause test inside `BacktrackingSolver.is_consistent`
(`solvers/backtracking_solvers.py`): a clause is acceptable when some
literal over a variable in the assignment dictionary (keys `1 .. h*w`) is
satisfied, or some such literal is still unassigned (`None`); a clause all
of whose in-range literals are assigned and falsified rejects the
assignment. -/
def btClauseOk (hw : Nat) (a : Nat → Option Bool) (cl : List Int) : Bool :=
  (cl.any fun lit =>
      decide (1 ≤ lit.natAbs ∧ lit.natAbs ≤ hw) &&
        match a lit.natAbs with
        | some v => if 0 < lit then v else !v
        | none => false) ||
  (cl.any fun lit =>
      decide (1 ≤ lit.natAbs ∧ lit.natAbs ≤ hw) && (a lit.natAbs).isNone)

/-- Source `BacktrackingSolver.is_consistent`: temporarily assign `value` to `var`
and test every clause that mentions `var`. -/
def is_consistent (hw : Nat) (clauses : List (List Int))
    (a : Nat → Option Bool) (var : Nat) (value : Bool) : Bool :=
  let temp : Nat → Option Bool := fun v => if v = var then some value else a v
  clauses.all fun cl =>
    if cl.any fun lit => lit.natAbs = var then btClauseOk hw temp cl else true

/-- Source `BacktrackingSolver.backtrack_search`: assign the empty cells in order,
trying `False` (gem) first and `True` (trap) second, keeping an assignment
only when `is_consistent` accepts it.  The Python version mutates one
dictionary and restores `None` on backtrack; functionally that is the
update-and-recurse below (the stale `False` left in the dictionary before
trying `True` is invisible because `is_consistent` overrides `var` in its
temporary copy). -/
def backtrack_search (hw width : Nat) (clauses : List (List Int)) :
    List (Nat × Nat) → (Nat → Option Bool) → Option (Nat → Option Bool)
  | [], a => some a
  | (r, c) :: rest, a =>
    let var := r * width + c + 1
    match
      (if is_consistent hw clauses a var false then
        backtrack_search hw width clauses rest
          (fun v => if v = var then some false else a v)
      else none) with
    | some a' => some a'
    | none =>
      if is_consistent hw clauses a var true then
        backtrack_search hw width clauses rest
          (fun v => if v = var then some true else a v)
      else none

/-- The solution grid `BacktrackingSolver.solve` returns on success: during
the search each empty cell was written `GEM_CELL`/`TRAP_CELL` as its
variable was assigned `False`/`True`, and the final sweep turns any empty
cell that somehow stayed empty into `GEM_CELL`; non-empty puzzle cells are
untouched. -/
def btGrid (puzzle : List (List SCell)) (width : Nat)
    (a : Nat → Option Bool) : List (List SCell) :=
  puzzle.enum.map fun ir =>
    ir.2.enum.map fun jc =>
      match jc.2 with
      | SCell.empty =>
        match a (ir.1 * width + jc.1 + 1) with
        | some true => SCell.trap
        | _ => SCell.gem
      | cell => cell

/-- Source `BacktrackingSolver.solve` (`solvers/backtracking_solvers.py`): start
from the all-`None` assignment over variables `1 .. h*w`, run the
backtracking search over the empty cells, and decode the resulting
assignment; on failure the (restored) puzzle grid is returned with
`False`. -/
def bt_solve (clauses : List (List Int)) (puzzle : List (List SCell))
    (h w : Nat) : List (List SCell) × Bool :=
  match backtrack_search (h * w) w clauses (emptyCells puzzle h w)
      (fun _ => none) with
  | some a => (btGrid puzzle w a, true)
  | none => (puzzle, false)

/-- Source `SATSolver._initialize_variable_mapping` (`solvers/sat_solver.py`): the
cell `(i, j)` of a width-`w` grid owns three consecutive 1-indexed
variables, `T` first. -/
def satVarT (w i j : Nat) : Int := ((3 * (i * w + j) + 1 : Nat) : Int)

/-- Gem-state variable of cell `(i, j)` (see `satVarT`). -/
def satVarG (w i j : Nat) : Int := ((3 * (i * w + j) + 2 : Nat) : Int)

/-- Empty-state variable of cell `(i, j)` (see `satVarT`). -/
def satVarE (w i j : Nat) : Int := ((3 * (i * w + j) + 3 : Nat) : Int)

/-- Source `SATSolver._add_cell_has_one_state`: at least one of the three state
variables, and no two simultaneously. -/
def sat_cell_has_one_state (w i j : Nat) : List (List Int) :=
  [[satVarT w i j, satVarG w i j, satVarE w i j],
   [-satVarT w i j, -satVarG w i j],
   [-satVarT w i j, -satVarE w i j],
   [-satVarG w i j, -satVarE w i j]]

/-- Source `SATSolver._add_cardinality_constraint`: binomial encoding of "exactly
`k` of `variables` are true" — every `(k+1)`-combination negated, every
`(n-k+1)`-combination positive (`itertools.combinations` is
`List.sublistsLen` up to enumeration order). -/
def sat_cardinality (vars : List Int) (k : Nat) : List (List Int) :=
  ((List.sublistsLen (k + 1) vars).map fun combo => combo.map fun v => -v) ++
    (List.sublistsLen (vars.length - k + 1) vars).map id

/-- Source `SATSolver._add_fixed_cell_constraints`: a digit cell is forced out of
all three states and its neighbours' trap variables get the exact
cardinality constraint; non-digit fixed cells contribute nothing
(`cell_value.isdigit()` is false). -/
def sat_fixed_cell (h w i j : Nat) : SCell → List (List Int)
  | SCell.num k =>
    [[-satVarT w i j], [-satVarG w i j], [-satVarE w i j]] ++
      sat_cardinality
        ((get_neighbors i j h w).map fun p => satVarT w p.1 p.2) k
  | _ => []

/-- Source `SATSolver._add_gem_constraints`: a gem cell has no trap neighbour, and
(when it has neighbours at all) at least one non-empty neighbour. -/
def sat_gem_constraints (h w i j : Nat) : List (List Int) :=
  ((get_neighbors i j h w).map fun p => [-satVarG w i j, -satVarT w p.1 p.2]) ++
    (if (get_neighbors i j h w).length = 0 then []
     else [-satVarG w i j ::
        (get_neighbors i j h w).map fun p => -satVarE w p.1 p.2])

/-- Source `SATSolver._add_unreachable_cell_constraints`: if every neighbour is
empty the cell itself is empty, clause by clause. -/
def sat_unreachable_constraints (h w i j : Nat) : List (List Int) :=
  (get_neighbors i j h w).map fun p => [-satVarE w p.1 p.2, satVarE w i j]

/-- Source `SATSolver.generate_cnf` (`solvers/sat_solver.py`): the clause list
appended cell by cell — one-state clauses for every cell, fixed-cell
constraints for non-empty cells, gem constraints and unreachable-cell
constraints for every cell.  The final deduplication step
(`set(tuple(clause) …)`) keeps exactly the same clauses as a set, so
satisfiability of this list and of the deduplicated one coincide. -/
def sat_generate_cnf (p : List (List SCell)) (h w : Nat) : List (List Int) :=
  (List.range h).flatMap fun i =>
    (List.range w).flatMap fun j =>
      sat_cell_has_one_state w i j ++
        (if scellAt p i j ≠ SCell.empty then
          sat_fixed_cell h w i j (scellAt p i j)
        else []) ++
        sat_gem_constraints h w i j ++
        sat_unreachable_constraints h w i j

/-- Satisfaction of a clause list by a total assignment (the model a SAT
oracle would return): every clause has a satisfied literal. -/
def satisfiesList (clauses : List (List Int)) (a : Nat → Bool) : Bool :=
  clauses.all fun cl => cl.any fun lit => litSatisfied a lit

/-- Write one cell of a solver grid (`solution_grid[i][j] = v`). -/
def setCell (g : List (List SCell)) (i j : Nat) (v : SCell) :
    List (List SCell) :=
  g.set i ((g.getD i []).set j v)

/-- The neighbour scan inside `BacktrackingSolver.infer_gems`
(`solvers/classical_solvers.py`): walking the neighbours in order, a trap
neighbour sets `has_trap` and breaks, while a neighbour that is neither
empty, gem nor trap (i.e. a number) sets `has_number`; the guard used is
`has_number and not has_trap`, which holds exactly when some neighbour is a
number and no neighbour is a trap. -/
def gemInferable (g : List (List SCell)) (i j h w : Nat) : Bool :=
  let nbs := get_neighbors i j h w
  (!nbs.any fun p => scellAt g p.1 p.2 = SCell.trap) &&
    (nbs.any fun p => match scellAt g p.1 p.2 with
      | SCell.num _ => true
      | _ => false)

/-- One full row-major scan of `infer_gems`: every still-empty cell whose
guard holds is written `GEM_CELL`, in place, so later cells of the same scan
see the earlier writes (which never affects the guard: the scan only turns
empty cells into gems, and the guard reads only number and trap cells). -/
def inferPass (h w : Nat) (g : List (List SCell)) : List (List SCell) :=
  (List.range h).foldl
    (fun g i =>
      (List.range w).foldl
        (fun g j =>
          if scellAt g i j = SCell.empty ∧ gemInferable g i j h w then
            setCell g i j SCell.gem
          else g)
        g)
    g

/-- Number of empty cells inside the `h × w` window; each productive scan of
`infer_gems` strictly decreases it, so it bounds the iteration count. -/
def countEmpty (g : List (List SCell)) (h w : Nat) : Nat :=
  ((List.range h).flatMap fun i =>
    (List.range w).filter fun j => scellAt g i j = SCell.empty).length

/-- Fuelled form of the `while updated` loop of `infer_gems`. -/
def inferGemsAux (h w : Nat) : Nat → List (List SCell) → List (List SCell)
  | 0, g => g
  | fuel + 1, g =>
    let g' := inferPass h w g
    if g' = g then g else inferGemsAux h w fuel g'

/-- Source `BacktrackingSolver.infer_gems` (`solvers/classical_solvers.py`): rescan
until a scan changes nothing.  `countEmpty g h w + 1` scans always suffice
because each scan before the last turns at least one empty cell into a
gem. -/
def infer_gems (h w : Nat) (g : List (List SCell)) : List (List SCell) :=
  inferGemsAux h w (countEmpty g h w + 1) g

/-- Trap count around `(i, j)` in a candidate grid
(`BruteForceSolver.is_valid_solution`). -/
def trapNeighborCount (s : List (List SCell)) (i j h w : Nat) : Nat :=
  ((get_neighbors i j h w).filter fun p => scellAt s p.1 p.2 = SCell.trap).length

/-- Source `BruteForceSolver.is_valid_solution` (`solvers/classical_solvers.py`):
a candidate `s` for puzzle `p` is valid when (1) every digit cell of the
puzzle sees exactly its number of trap neighbours in `s`, (2) every gem cell
of `s` has no trap neighbour and at least one non-empty neighbour, and (3)
no cell all of whose neighbours are empty is itself non-empty. -/
def is_valid_solution (p s : List (List SCell)) (h w : Nat) : Bool :=
  ((List.range h).all fun i => (List.range w).all fun j =>
    match scellAt p i j with
    | SCell.num k => trapNeighborCount s i j h w = k
    | _ => true) &&
  ((List.range h).all fun i => (List.range w).all fun j =>
    if scellAt s i j = SCell.gem then
      (!(get_neighbors i j h w).any fun p => scellAt s p.1 p.2 = SCell.trap) &&
        ((get_neighbors i j h w).any fun p => scellAt s p.1 p.2 ≠ SCell.empty)
    else true) &&
  ((List.range h).all fun i => (List.range w).all fun j =>
    !(((get_neighbors i j h w).all fun p => scellAt s p.1 p.2 = SCell.empty) &&
      scellAt s i j ≠ SCell.empty))

/-- The clause collection of a DIMACS clause list, clause by clause as a set
of literal sets; two clause lists with the same `clauseSetOf` are the same
CNF formula up to clause order, literal order and duplication — exactly the
freedom Python's `set`/`frozenset` iteration order leaves in the serialized
file. -/
def clauseSetOf (L : List (List Int)) : Finset (Finset Int) :=
  (L.map List.toFinset).toFinset

/-- The clause-set-level reading of one clause test of
`BacktrackingSolver.is_consistent`: if the clause mentions `var`, then some
in-range literal is satisfied by the temporary assignment or some in-range
literal is still unassigned. -/
def BTClauseCond (hw : Nat) (temp : Nat → Option Bool) (var : Nat)
    (C : Finset Int) : Prop :=
  (∃ l ∈ C, l.natAbs = var) →
    ((∃ l ∈ C, (1 ≤ l.natAbs ∧ l.natAbs ≤ hw) ∧
        (match temp l.natAbs with
         | some v => if 0 < l then v else !v
         | none => false) = true) ∨
     (∃ l ∈ C, (1 ≤ l.natAbs ∧ l.natAbs ≤ hw) ∧
        (temp l.natAbs).isNone = true))

/-- One solver grid is a gem-update of another: every cell is unchanged or
was empty and became a gem.  This is the only kind of change `infer_gems`
performs. -/
def GemUpd (g g' : List (List SCell)) : Prop :=
  ∀ i j, scellAt g' i j = scellAt g i j ∨
    (scellAt g i j = SCell.empty ∧ scellAt g' i j = SCell.gem)

/-- Validator rule 1 (spec §4.5): every number cell of the puzzle sees
exactly its number of trap neighbours in the candidate. -/
def NumberRule (p s : List (List SCell)) (h w : Nat) : Prop :=
  ∀ i < h, ∀ j < w,
    match scellAt p i j with
    | SCell.num k => trapNeighborCount s i j h w = k
    | _ => True

/-- Validator rule 2 (spec §4.5): every gem cell of the candidate has zero
trap neighbours and at least one non-empty neighbour. -/
def GemRule (s : List (List SCell)) (h w : Nat) : Prop :=
  ∀ i < h, ∀ j < w, scellAt s i j = SCell.gem →
    (∀ q ∈ get_neighbors i j h w, scellAt s q.1 q.2 ≠ SCell.trap) ∧
      (∃ q ∈ get_neighbors i j h w, scellAt s q.1 q.2 ≠ SCell.empty)

/-- Validator rule 3 (spec §4.5): a cell all of whose neighbours are empty
is itself empty or a gem, never a trap (and never a number). -/
def UnreachableRule (s : List (List SCell)) (h w : Nat) : Prop :=
  ∀ i < h, ∀ j < w,
    (∀ q ∈ get_neighbors i j h w, scellAt s q.1 q.2 = SCell.empty) →
      scellAt s i j = SCell.empty ∨ scellAt s i j = SCell.gem

instance decNumberRuleCell (p s : List (List SCell)) (h w i j : Nat) :
    Decidable (match scellAt p i j with
      | SCell.num k => trapNeighborCount s i j h w = k
      | _ => True) := by
  cases hc : scellAt p i j <;> simp only [hc] <;> infer_instance

instance decNumberRule (p s : List (List SCell)) (h w : Nat) :
    Decidable (NumberRule p s h w) := by
  unfold NumberRule
  infer_instance

instance decGemRule (s : List (List SCell)) (h w : Nat) :
    Decidable (GemRule s h w) := by
  unfold GemRule
  infer_instance

instance decUnreachableRule (s : List (List SCell)) (h w : Nat) :
    Decidable (UnreachableRule s h w) := by
  unfold UnreachableRule
  infer_instance

/-- The 3×3 puzzle of the spec's concrete scenario (§8): numbers at
`(0,1) = 2` and `(1,0) = 1`, all other cells unknown — encoder view. -/
def c2grid : List (List Cell) :=
  [[Cell.empty, Cell.num 2, Cell.empty],
   [Cell.num 1, Cell.empty, Cell.empty],
   [Cell.empty, Cell.empty, Cell.empty]]

/-- The same 3×3 puzzle, solver view. -/
def c2puzzle : List (List SCell) :=
  [[SCell.empty, SCell.num 2, SCell.empty],
   [SCell.num 1, SCell.empty, SCell.empty],
   [SCell.empty, SCell.empty, SCell.empty]]

/-- One linearization of `convert_to_cnf c2grid 3` (the clause set of the
DIMACS file the pipeline feeds both direct solvers); the solvers are proved
insensitive to the linearization chosen. -/
def c2clauses : List (List Int) :=
  [[-2], [-4],
   [1, 3, 5, 6],
   [-1, -3, -5], [-1, -3, -6], [-1, -5, -6], [-3, -5, -6],
   [1, 3, 5], [1, 3, 6], [1, 5, 6], [3, 5, 6],
   [1, 5, 7, 8],
   [-1, -5], [-1, -7], [-1, -8], [-5, -7], [-5, -8], [-7, -8]]

/-- The grid the DIMACS brute-force solver returns on the scenario puzzle
(first satisfying mask, `mask = 3`: traps at `(0,0)` and `(0,2)`). -/
def c2bfGrid : List (List SCell) :=
  [[SCell.trap, SCell.num 2, SCell.trap],
   [SCell.num 1, SCell.gem, SCell.gem],
   [SCell.gem, SCell.gem, SCell.gem]]

/-- The grid the DIMACS backtracking solver returns on the scenario puzzle
(gem-first search: traps at `(1,1)` and `(1,2)`). -/
def c2btGrid : List (List SCell) :=
  [[SCell.gem, SCell.num 2, SCell.gem],
   [SCell.num 1, SCell.trap, SCell.trap],
   [SCell.gem, SCell.gem, SCell.gem]]

/-- A 2×2 grid whose single number cell demands more traps (8) than it has
unassigned neighbours (3): the malformed-puzzle shape of spec §7. -/
def g8grid : List (List Cell) :=
  [[Cell.num 8, Cell.empty], [Cell.empty, Cell.empty]]

/-- A 1×1 grid consisting of a single number cell with no neighbours. -/
def g1grid : List (List Cell) := [[Cell.num 1]]

/-- A 2×2 grid with a single `Number 1` cell, used to witness the exact
cardinality property. -/
def gw1grid : List (List Cell) :=
  [[Cell.num 1, Cell.empty], [Cell.empty, Cell.empty]]

/-- A 1×4 solver grid with one number cell; after gem inference its second
cell becomes a gem and the third cell stays empty although it then has a
resolved (gem) neighbour and no trap neighbour. -/
def c8grid : List (List SCell) :=
  [[SCell.num 1, SCell.empty, SCell.empty, SCell.empty]]

/-- A 1×3 all-unknown solver puzzle for the enumeration-cap scenario. -/
def c6puzzle : List (List SCell) := [[SCell.empty, SCell.empty, SCell.empty]]

/-- An unsatisfiable two-clause CNF over variable 1, used to drive the
brute-force loop to its cap. -/
def c6clauses : List (List Int) := [[1], [-1]]

/-- Row-major enumeration of the positions of an `h × w` window, the order
in which `infer_gems` scans cells; proof helper. -/
def rowMajor (h w : Nat) : List (Nat × Nat) :=
  (List.range h).flatMap fun i => (List.range w).map fun j => (i, j)

/-- Proof helper: `inferPass` as a single fold over an explicit position
list (shown equal to the nested row/column fold of the source). -/
def procCells (h w : Nat) : List (Nat × Nat) → List (List SCell) →
    List (List SCell)
  | [], g => g
  | p :: ps, g =>
    procCells h w ps
      (if scellAt g p.1 p.2 = SCell.empty ∧ gemInferable g p.1 p.2 h w then
        setCell g p.1 p.2 SCell.gem
      else g)

/-- A 1×3 grid whose middle cell has a trap neighbour; gem inference leaves
it untouched. -/
def c8wgrid : List (List SCell) :=
  [[SCell.num 1, SCell.empty, SCell.trap]]

/-- A 2×2 puzzle used to exercise the validator. -/
def p9 : List (List SCell) :=
  [[SCell.num 1, SCell.empty], [SCell.empty, SCell.empty]]

/-- An invalid candidate for `p9`: the gem at `(1,0)` has the trap at
`(0,1)` among its neighbours. -/
def s9bad : List (List SCell) :=
  [[SCell.num 1, SCell.trap], [SCell.gem, SCell.empty]]

/-- A valid candidate for `p9`: one trap, remaining cells left empty. -/
def s9good : List (List SCell) :=
  [[SCell.num 1, SCell.trap], [SCell.empty, SCell.empty]]

/-! ### Basic facts about variables and neighbourhoods -/

theorem flatten_eq_natCast (n r c : Nat) :
    flatten n r c = ((flattenN n r c : Nat) : Int) := rfl

theorem flatten_pos (n r c : Nat) : 0 < flatten n r c :=
  Int.natCast_pos.mpr (Nat.succ_pos _)

theorem natAbs_flatten (n r c : Nat) :
    (flatten n r c).natAbs = flattenN n r c := by
  rw [flatten_eq_natCast]
  exact Int.natAbs_ofNat _

theorem flattenN_inj {n r c r2 c2 : Nat} (hc : c < n) (hc2 : c2 < n)
    (h : flattenN n r c = flattenN n r2 c2) : r = r2 ∧ c = c2 := by
  unfold flattenN at h
  have h2 : n * r + c = n * r2 + c2 := by
    rw [Nat.mul_comm n r, Nat.mul_comm n r2]; omega
  have hn : 0 < n := by omega
  have hr : r = r2 := by
    have e1 : (n * r + c) / n = r := by
      rw [Nat.mul_add_div hn, Nat.div_eq_of_lt hc]; omega
    have e2 : (n * r2 + c2) / n = r2 := by
      rw [Nat.mul_add_div hn, Nat.div_eq_of_lt hc2]; omega

    rw [← e1, ← e2, h2]
  refine ⟨hr, ?_⟩
  subst hr
  omega

theorem mem_get_neighbors_lt {i j hh ww : Nat} {p : Nat × Nat}
    (hp : p ∈ get_neighbors i j hh ww) : p.1 < hh ∧ p.2 < ww := by
  simp only [get_neighbors, List.mem_filterMap] at hp
  obtain ⟨d, -, hd⟩ := hp
  split at hd
  · next hcond =>
    obtain ⟨h1, h2, h3, h4⟩ := hcond
    cases hd
    refine ⟨?_, ?_⟩ <;> simp <;> omega
  · cases hd

theorem self_not_mem_get_neighbors (i j hh ww : Nat) :
    (i, j) ∉ get_neighbors i j hh ww := by
  intro hp
  simp only [get_neighbors, List.mem_filterMap] at hp
  obtain ⟨d, hdmem, hd⟩ := hp
  split at hd
  · next hcond =>
    have hpair := Option.some.inj hd
    have e1 : ((i : Int) + d.1).toNat = i := congrArg Prod.fst hpair
    have e2 : ((j : Int) + d.2).toNat = j := congrArg Prod.snd hpair
    fin_cases hdmem <;> simp_all <;> omega
  · cases hd

theorem get_neighbors_nodup (i j hh ww : Nat) :
    (get_neighbors i j hh ww).Nodup := by
  apply List.Nodup.filterMap
  · intro a b p hap hbp
    simp only [Option.mem_def] at hap hbp
    split at hap
    · next hca =>
      have ha := Option.some.inj hap
      split at hbp
      · next hcb =>
        have hb := Option.some.inj hbp
        have e1 : ((i : Int) + a.1).toNat = ((i : Int) + b.1).toNat :=
          congrArg Prod.fst (ha.trans hb.symm)
        have e2 : ((j : Int) + a.2).toNat = ((j : Int) + b.2).toNat :=
          congrArg Prod.snd (ha.trans hb.symm)
        exact Prod.ext (by omega) (by omega)
      · cases hbp
    · cases hap
  · decide

theorem mem_unassignedNeighbors {g : List (List Cell)} {n row col : Nat}
    {p : Nat × Nat} (hp : p ∈ unassignedNeighbors g n row col) :
    p ∈ get_neighbors row col n n ∧ cellAt g p.1 p.2 = Cell.empty := by
  simpa [unassignedNeighbors, List.mem_filter] using hp

theorem unassignedNeighbors_nodup (g : List (List Cell)) (n row col : Nat) :
    (unassignedNeighbors g n row col).Nodup :=
  (get_neighbors_nodup row col n n).filter _

theorem neighborVars_nodup (g : List (List Cell)) (n row col : Nat) :
    (neighborVars g n row col).Nodup := by
  refine List.Nodup.map_on ?_ (unassignedNeighbors_nodup g n row col)
  intro p hp q hq hpq
  have hpb := (mem_get_neighbors_lt (mem_unassignedNeighbors hp).1).2
  have hqb := (mem_get_neighbors_lt (mem_unassignedNeighbors hq).1).2
  have hN : flattenN n p.1 p.2 = flattenN n q.1 q.2 := by
    have := congrArg Int.natAbs hpq
    rwa [natAbs_flatten, natAbs_flatten] at this
  obtain ⟨h1, h2⟩ := flattenN_inj hpb hqb hN
  exact Prod.ext h1 h2

theorem mem_neighborVars {g : List (List Cell)} {n row col : Nat} {v : Int}
    (hv : v ∈ neighborVars g n row col) :
    ∃ p ∈ unassignedNeighbors g n row col, v = flatten n p.1 p.2 := by
  simp only [neighborVars, List.mem_map] at hv
  obtain ⟨p, hp, rfl⟩ := hv
  exact ⟨p, hp, rfl⟩

theorem neighborVars_pos {g : List (List Cell)} {n row col : Nat} {v : Int}
    (hv : v ∈ neighborVars g n row col) : 0 < v := by
  obtain ⟨p, -, rfl⟩ := mem_neighborVars hv
  exact flatten_pos n p.1 p.2

/-! ### Pigeonhole facts about the binomial cardinality encoding -/

theorem forall_sublistsLen_exists_not_iff {α : Type} (l : List α) (p : α → Bool)
    (k : Nat) :
    (∀ s ∈ List.sublistsLen (k + 1) l, ∃ v ∈ s, p v = false) ↔
      (l.filter p).length ≤ k := by
  constructor
  · intro h
    by_contra hlen
    push_neg at hlen
    have hsub : List.Sublist ((l.filter p).take (k + 1)) l :=
      (List.take_sublist _ _).trans (List.filter_sublist l)
    have hslen : ((l.filter p).take (k + 1)).length = k + 1 := by
      rw [List.length_take]; omega
    obtain ⟨v, hv, hvf⟩ :=
      h _ (List.mem_sublistsLen.mpr ⟨hsub, hslen⟩)
    have : p v = true := List.of_mem_filter (List.mem_of_mem_take hv)
    rw [this] at hvf
    cases hvf
  · intro hlen s hsmem
    obtain ⟨hsub, hslen⟩ := List.mem_sublistsLen.mp hsmem
    by_contra hnone
    push_neg at hnone
    simp only [Bool.not_eq_false] at hnone
    have hfil : s.filter p = s := List.filter_eq_self.mpr hnone
    have hle : s.length ≤ (l.filter p).length := by
      calc s.length = (s.filter p).length := by rw [hfil]
        _ ≤ (l.filter p).length := (hsub.filter p).length_le
    omega

theorem forall_sublistsLen_exists_true_iff {α : Type} (l : List α)
    (p : α → Bool) (k : Nat) :
    (∀ s ∈ List.sublistsLen (k + 1) l, ∃ v ∈ s, p v = true) ↔
      (l.filter fun v => !p v).length ≤ k := by
  simpa using forall_sublistsLen_exists_not_iff l (fun v => !p v) k

/-! ### Clause satisfaction helpers -/

theorem clauseSat_singleton {a : Nat → Bool} {x : Int} :
    ClauseSat a {x} ↔ litSatisfied a x = true := by
  simp [ClauseSat]

theorem clauseSat_listToFinset {a : Nat → Bool} {s : List Int} :
    ClauseSat a s.toFinset ↔ ∃ l ∈ s, litSatisfied a l = true := by
  simp [ClauseSat]

theorem litSatisfied_pos {a : Nat → Bool} {v : Int} (hv : 0 < v) :
    litSatisfied a v = a v.natAbs := if_pos hv

theorem litSatisfied_neg_of_pos {a : Nat → Bool} {v : Int} (hv : 0 < v) :
    litSatisfied a (-v) = !a v.natAbs := by
  unfold litSatisfied
  rw [if_neg (by omega), Int.natAbs_neg]

/-! ### Structure of the generated clause set -/

theorem mem_convert_to_cnf {g : List (List Cell)} {n : Nat} {C : Finset Int} :
    C ∈ convert_to_cnf g n ↔
      ∃ r, r < n ∧ ∃ c, c < n ∧ ∃ k,
        cellAt g r c = Cell.num k ∧ C ∈ cellClauses g n r c k := by
  unfold convert_to_cnf
  simp only [Finset.mem_biUnion, Finset.mem_range]
  constructor
  · rintro ⟨r, hr, c, hc, hC⟩
    cases hcell : cellAt g r c with
    | empty => rw [hcell] at hC; cases hC
    | num k =>
      rw [hcell] at hC
      exact ⟨r, hr, c, hc, k, hcell, hC⟩
  · rintro ⟨r, hr, c, hc, k, hcell, hC⟩
    refine ⟨r, hr, c, hc, ?_⟩
    rw [hcell]
    exact hC

theorem convert_to_cnf_single {g : List (List Cell)} {n r c k : Nat}
    (hr : r < n) (hc : c < n) (hcell : cellAt g r c = Cell.num k)
    (hother : ∀ r2 < n, ∀ c2 < n, (r2, c2) ≠ (r, c) → cellAt g r2 c2 = Cell.empty) :
    convert_to_cnf g n = cellClauses g n r c k := by
  ext C
  rw [mem_convert_to_cnf]
  constructor
  · rintro ⟨r2, hr2, c2, hc2, k2, hcell2, hC⟩
    by_cases hpq : (r2, c2) = (r, c)
    · have hre : r2 = r := congrArg Prod.fst hpq
      have hce : c2 = c := congrArg Prod.snd hpq
      subst hre; subst hce
      rw [hcell] at hcell2
      cases hcell2
      exact hC
    · rw [hother r2 hr2 c2 hc2 hpq] at hcell2
      cases hcell2
  · intro hC
    exact ⟨r, hr, c, hc, k, hcell, hC⟩

theorem cellClauses_k0 {g : List (List Cell)} {n r c : Nat} :
    cellClauses g n r c 0 =
      insert {-flatten n r c}
        ((neighborVars g n r c).map fun v => ({-v} : Finset Int)).toFinset := by
  unfold cellClauses
  simp

theorem cellClauses_m0 {g : List (List Cell)} {n r c k : Nat} (hk : k ≠ 0)
    (hm : (unassignedNeighbors g n r c).length = 0) :
    cellClauses g n r c k = {({-flatten n r c} : Finset Int)} := by
  unfold cellClauses
  simp [hk, hm]

theorem cellClauses_mk {g : List (List Cell)} {n r c k : Nat} (hk : k ≠ 0)
    (hm : (unassignedNeighbors g n r c).length = k) :
    cellClauses g n r c k =
      insert {-flatten n r c}
        ((neighborVars g n r c).map fun v => ({v} : Finset Int)).toFinset := by
  unfold cellClauses
  simp [hk, hm]

theorem cellClauses_mgt {g : List (List Cell)} {n r c k : Nat} (hk : k ≠ 0)
    (hm : (unassignedNeighbors g n r c).length > k) :
    cellClauses g n r c k =
      insert {-flatten n r c}
        (insert (neighborVars g n r c).toFinset
          ((((List.sublistsLen (k + 1) (neighborVars g n r c)).map fun comb =>
              (comb.map fun v => -v).toFinset).toFinset) ∪
            (((List.sublistsLen ((unassignedNeighbors g n r c).length - k + 1)
                (neighborVars g n r c)).map fun comb => comb.toFinset).toFinset))) := by
  unfold cellClauses
  have hm0 : (unassignedNeighbors g n r c).length ≠ 0 := by omega
  have hmk : (unassignedNeighbors g n r c).length ≠ k := by omega
  simp [hk, hm0, hmk, hm]

theorem cellClauses_lt {g : List (List Cell)} {n r c k : Nat} (hk : k ≠ 0)
    (hm0 : (unassignedNeighbors g n r c).length ≠ 0)
    (hm : (unassignedNeighbors g n r c).length < k) :
    cellClauses g n r c k = {({-flatten n r c} : Finset Int)} := by
  unfold cellClauses
  have hmk : (unassignedNeighbors g n r c).length ≠ k := by omega
  have hmgt : ¬((unassignedNeighbors g n r c).length > k) := by omega
  simp [hk, hm0, hmk, hmgt]

theorem forall_mem_map_toFinset_iff {a : Nat → Bool} {α : Type}
    {lst : List α} {f : α → Finset Int} :
    (∀ C ∈ (lst.map f).toFinset, ClauseSat a C) ↔
      ∀ v ∈ lst, ClauseSat a (f v) := by
  constructor
  · intro h v hv
    exact h _ (List.mem_toFinset.mpr (List.mem_map_of_mem f hv))
  · intro h C hC
    obtain ⟨v, hv, rfl⟩ := List.mem_map.mp (List.mem_toFinset.mp hC)
    exact h v hv

/-- C1, amended with the hypothesis `k ≤ m`: in a grid whose only non-empty
cell is a `Number k` cell with `m` unassigned neighbours, an assignment that
is true only on the neighbours' trap variables satisfies every clause of
`convert_to_cnf` iff exactly `k` of the neighbour variables are true. -/
theorem singleNumber_exact_cardinality
    {g : List (List Cell)} {n r c k : Nat} {a : Nat → Bool}
    (hr : r < n) (hc : c < n) (hcell : cellAt g r c = Cell.num k)
    (hother : ∀ r2 < n, ∀ c2 < n, (r2, c2) ≠ (r, c) → cellAt g r2 c2 = Cell.empty)
    (hkm : k ≤ (unassignedNeighbors g n r c).length)
    (hsupp : ∀ v : Nat, a v = true → (v : Int) ∈ neighborVars g n r c) :
    (∀ C ∈ convert_to_cnf g n, ClauseSat a C) ↔
      ((neighborVars g n r c).filter fun v => a v.natAbs).length = k := by
  set AB : Int → Bool := fun v => a v.natAbs with hABdef
  have hcv : a (flattenN n r c) = false := by
    by_contra hcvt
    rw [Bool.not_eq_false] at hcvt
    obtain ⟨p, hpmem, hpe⟩ := mem_neighborVars (hsupp _ hcvt)
    have hN : flattenN n r c = flattenN n p.1 p.2 := by
      have := congrArg Int.natAbs hpe
      rwa [Int.natAbs_ofNat, natAbs_flatten] at this
    have hpb := mem_get_neighbors_lt (mem_unassignedNeighbors hpmem).1
    obtain ⟨h1, h2⟩ := flattenN_inj hc hpb.2 hN
    have hpn := (mem_unassignedNeighbors hpmem).1
    rw [show p = (r, c) from Prod.ext h1.symm h2.symm] at hpn
    exact self_not_mem_get_neighbors r c n n hpn
  have hcvsat : ClauseSat a {-flatten n r c} := by
    rw [clauseSat_singleton, litSatisfied_neg_of_pos (flatten_pos n r c),
      natAbs_flatten, hcv]
    rfl
  rw [convert_to_cnf_single hr hc hcell hother]
  by_cases hk0 : k = 0
  · subst hk0
    rw [cellClauses_k0, Finset.forall_mem_insert, forall_mem_map_toFinset_iff]
    constructor
    · rintro ⟨-, hunits⟩
      rw [List.length_eq_zero, List.filter_eq_nil_iff]
      intro v hv
      have := hunits v hv
      rw [clauseSat_singleton, litSatisfied_neg_of_pos (neighborVars_pos hv)] at this
      simp only [Bool.not_eq_true'] at this
      simp [hABdef, this]
    · intro hcount
      refine ⟨hcvsat, fun v hv => ?_⟩
      rw [clauseSat_singleton, litSatisfied_neg_of_pos (neighborVars_pos hv)]
      rw [List.length_eq_zero, List.filter_eq_nil_iff] at hcount
      have := hcount v hv
      simp only [hABdef, Bool.not_eq_true] at this
      simp [this]
  · have hnvlen : (neighborVars g n r c).length =
        (unassignedNeighbors g n r c).length := List.length_map _ _
    by_cases hmk : (unassignedNeighbors g n r c).length = k
    · rw [cellClauses_mk hk0 hmk, Finset.forall_mem_insert,
        forall_mem_map_toFinset_iff]
      constructor
      · rintro ⟨-, hunits⟩
        have hall : ∀ v ∈ neighborVars g n r c, AB v = true := by
          intro v hv
          have := hunits v hv
          rwa [clauseSat_singleton, litSatisfied_pos (neighborVars_pos hv)] at this
        rw [List.filter_eq_self.mpr hall, hnvlen, hmk]
      · intro hcount
        refine ⟨hcvsat, fun v hv => ?_⟩
        rw [clauseSat_singleton, litSatisfied_pos (neighborVars_pos hv)]
        have hfs : (neighborVars g n r c).filter AB = neighborVars g n r c :=
          (List.filter_sublist _).eq_of_length (by rw [hcount, hnvlen, hmk])
        have hvf : AB v = true := List.of_mem_filter
          (show v ∈ (neighborVars g n r c).filter AB by rw [hfs]; exact hv)
        exact hvf
    · have hmgt : (unassignedNeighbors g n r c).length > k := by omega
      rw [cellClauses_mgt hk0 hmgt, Finset.forall_mem_insert,
        Finset.forall_mem_insert, Finset.forall_mem_union,
        forall_mem_map_toFinset_iff, forall_mem_map_toFinset_iff]
      have hneg :
          (∀ s ∈ List.sublistsLen (k + 1) (neighborVars g n r c),
              ClauseSat a (s.map fun v => -v).toFinset) ↔
            ((neighborVars g n r c).filter AB).length ≤ k := by
        refine (forall₂_congr fun s hs => ?_).trans
          (forall_sublistsLen_exists_not_iff (neighborVars g n r c) AB k)
        rw [clauseSat_listToFinset]
        constructor
        · rintro ⟨l, hl, hsat⟩
          obtain ⟨v, hv, rfl⟩ := List.mem_map.mp hl
          have hvpos : 0 < v :=
            neighborVars_pos ((List.mem_sublistsLen.mp hs).1.subset hv)
          rw [litSatisfied_neg_of_pos hvpos] at hsat
          exact ⟨v, hv, by simpa [hABdef] using hsat⟩
        · rintro ⟨v, hv, hvf⟩
          have hvpos : 0 < v :=
            neighborVars_pos ((List.mem_sublistsLen.mp hs).1.subset hv)
          refine ⟨-v, List.mem_map_of_mem _ hv, ?_⟩
          rw [litSatisfied_neg_of_pos hvpos]
          simp only [hABdef] at hvf
          simp [hvf]
      have hpos :
          (∀ s ∈ List.sublistsLen
              ((unassignedNeighbors g n r c).length - k + 1)
              (neighborVars g n r c),
              ClauseSat a s.toFinset) ↔
            ((neighborVars g n r c).filter fun v => !AB v).length ≤
              (unassignedNeighbors g n r c).length - k := by
        refine (forall₂_congr fun s hs => ?_).trans
          (forall_sublistsLen_exists_true_iff (neighborVars g n r c) AB
            ((unassignedNeighbors g n r c).length - k))
        rw [clauseSat_listToFinset]
        constructor
        · rintro ⟨l, hl, hsat⟩
          have hvpos : 0 < l :=
            neighborVars_pos ((List.mem_sublistsLen.mp hs).1.subset hl)
          rw [litSatisfied_pos hvpos] at hsat
          exact ⟨l, hl, hsat⟩
        · rintro ⟨v, hv, hvt⟩
          refine ⟨v, hv, ?_⟩
          have hvpos : 0 < v :=
            neighborVars_pos ((List.mem_sublistsLen.mp hs).1.subset hv)
          rw [litSatisfied_pos hvpos]
          exact hvt
      have hbig : ClauseSat a (neighborVars g n r c).toFinset ↔
          ∃ v ∈ neighborVars g n r c, AB v = true := by
        rw [clauseSat_listToFinset]
        refine exists_congr fun v => and_congr_right fun hv => ?_
        rw [litSatisfied_pos (neighborVars_pos hv)]
      have hsum := @List.length_eq_length_filter_add Int
        (neighborVars g n r c) AB
      constructor
      · rintro ⟨-, hbigsat, hnegs, hposs⟩
        have h1 := hneg.mp hnegs
        have h2 := hpos.mp hposs
        omega
      · intro hcount
        refine ⟨hcvsat, ?_, hneg.mpr (by omega), hpos.mpr (by omega)⟩
        rw [hbig]
        have hne : (neighborVars g n r c).filter AB ≠ [] := by
          intro hnil
          rw [hnil] at hcount
          simp at hcount
          omega
        obtain ⟨v, hv⟩ := List.exists_mem_of_ne_nil _ hne
        exact ⟨v, List.mem_of_mem_filter hv, List.of_mem_filter hv⟩

/-- C1, counterexample to the claim as stated: on the 2×2 grid whose single
number cell demands 8 traps among its 3 unassigned neighbours, the all-false
assignment satisfies every generated clause while zero (not 8) of its
entries are true, so the unconditional iff fails when `m < n`. -/
theorem singleNumber_exact_cardinality_cex :
    ¬ ((∀ C ∈ convert_to_cnf g8grid 2, ClauseSat (fun _ => false) C) ↔
      ((neighborVars g8grid 2 0 0).filter
        fun v => (fun _ : Nat => false) v.natAbs).length = 8) := by
  decide

/-- C1, witness: the amended theorem applied to a concrete 2×2 grid with a
`Number 1` cell and the assignment making exactly its variable-2 neighbour a
trap. -/
theorem singleNumber_exact_cardinality_witness :
    (∀ C ∈ convert_to_cnf gw1grid 2,
      ClauseSat (fun v : Nat => decide (v = 2)) C) ↔
      ((neighborVars gw1grid 2 0 0).filter
        fun v => (fun v : Nat => decide (v = 2)) v.natAbs).length = 1 :=
  @singleNumber_exact_cardinality gw1grid 2 0 0 1 (fun v : Nat => decide (v = 2))
    (by decide) (by decide) (by decide) (by decide) (by decide)
    (fun v hv => by
      have hv2 : v = 2 := of_decide_eq_true hv
      subst hv2
      decide)

/-! ### Subset form of the combination families -/

theorem list_toFinset_map (f : Int → Int) (l : List Int) :
    (l.map f).toFinset = l.toFinset.image f := by
  ext x
  simp

theorem exists_sublistsLen_toFinset_iff {l : List Int} (hl : l.Nodup)
    {j : Nat} {S : Finset Int} :
    (∃ s ∈ List.sublistsLen j l, s.toFinset = S) ↔
      S ⊆ l.toFinset ∧ S.card = j := by
  constructor
  · rintro ⟨s, hs, rfl⟩
    obtain ⟨hsub, hlen⟩ := List.mem_sublistsLen.mp hs
    refine ⟨fun x hx => List.mem_toFinset.mpr
      (hsub.subset (List.mem_toFinset.mp hx)), ?_⟩
    rw [List.toFinset_card_of_nodup (hl.sublist hsub), hlen]
  · rintro ⟨hsub, hcard⟩
    have htf : (l.filter fun x => x ∈ S).toFinset = S := by
      ext x
      simp only [List.mem_toFinset, List.mem_filter, decide_eq_true_eq]
      exact ⟨fun hx => hx.2, fun hx => ⟨List.mem_toFinset.mp (hsub hx), hx⟩⟩
    refine ⟨l.filter fun x => x ∈ S,
      List.mem_sublistsLen.mpr ⟨List.filter_sublist l, ?_⟩, htf⟩
    rw [← List.toFinset_card_of_nodup (hl.filter _), htf, hcard]

/-- C3: for a number cell with `0 < n < m`, the clauses recorded for that
cell are exactly: its own non-trap unit clause, the full disjunction of the
`m` neighbour variables, the negated clause of every `(n+1)`-subset, and the
positive clause of every `(m-n+1)`-subset — nothing else.  The unit clause
`{-cell_var}` is over the cell's own variable, not over the neighbours. -/
theorem numberCell_encoding_characterization
    {g : List (List Cell)} {n r c k : Nat}
    (hr : r < n) (hc : c < n) (hcell : cellAt g r c = Cell.num k)
    (hk : 0 < k) (hm : k < (unassignedNeighbors g n r c).length) :
    ∀ C : Finset Int, C ∈ cellClauses g n r c k ↔
      (C = {-flatten n r c} ∨
       C = (neighborVars g n r c).toFinset ∨
       (∃ S ⊆ (neighborVars g n r c).toFinset, S.card = k + 1 ∧
          C = S.image fun v => -v) ∨
       (∃ S ⊆ (neighborVars g n r c).toFinset,
          S.card = (unassignedNeighbors g n r c).length - k + 1 ∧ C = S)) := by
  intro C
  rw [cellClauses_mgt (by omega) hm]
  simp only [Finset.mem_insert, Finset.mem_union, List.mem_toFinset,
    List.mem_map]
  have hnd := neighborVars_nodup g n r c
  constructor
  · rintro (rfl | rfl | ⟨s, hs, rfl⟩ | ⟨s, hs, rfl⟩)
    · exact Or.inl rfl
    · exact Or.inr (Or.inl rfl)
    · refine Or.inr (Or.inr (Or.inl ⟨s.toFinset, ?_, ?_, ?_⟩))
      · exact (exists_sublistsLen_toFinset_iff hnd).mp ⟨s, hs, rfl⟩ |>.1
      · exact (exists_sublistsLen_toFinset_iff hnd).mp ⟨s, hs, rfl⟩ |>.2
      · rw [list_toFinset_map]
    · refine Or.inr (Or.inr (Or.inr ⟨s.toFinset, ?_, ?_, rfl⟩))
      · exact (exists_sublistsLen_toFinset_iff hnd).mp ⟨s, hs, rfl⟩ |>.1
      · exact (exists_sublistsLen_toFinset_iff hnd).mp ⟨s, hs, rfl⟩ |>.2
  · rintro (rfl | rfl | ⟨S, hS, hcard, rfl⟩ | ⟨S, hS, hcard, rfl⟩)
    · exact Or.inl rfl
    · exact Or.inr (Or.inl rfl)
    · obtain ⟨s, hs, hstf⟩ :=
        (exists_sublistsLen_toFinset_iff hnd).mpr ⟨hS, hcard⟩
      refine Or.inr (Or.inr (Or.inl ⟨s, hs, ?_⟩))
      rw [list_toFinset_map, hstf]
    · obtain ⟨s, hs, hstf⟩ :=
        (exists_sublistsLen_toFinset_iff hnd).mpr ⟨hS, hcard⟩
      exact Or.inr (Or.inr (Or.inr ⟨s, hs, hstf⟩))

/-- C3, witness: on the concrete 2×2 grid with its `Number 1` cell
(`m = 3 > 1 = n`), the negated pair clause `{-2, -3}` is recorded, via the
subset `{2, 3}` of the neighbour variables. -/
theorem numberCell_encoding_characterization_witness :
    ({-2, -3} : Finset Int) ∈ cellClauses gw1grid 2 0 0 1 :=
  (numberCell_encoding_characterization (by decide) (by decide) (by decide)
      (by decide) (by decide) {-2, -3}).mpr
    (Or.inr (Or.inr (Or.inl ⟨{2, 3}, by decide, by decide, by decide⟩)))

/-! ### Inventory of the literals of every generated clause -/

theorem clause_literal_inventory {g : List (List Cell)} {n : Nat}
    {C : Finset Int} (hC : C ∈ convert_to_cnf g n) :
    (∃ r, r < n ∧ ∃ c, c < n ∧ ∃ k,
      cellAt g r c = Cell.num k ∧ C = {-flatten n r c}) ∨
      ∀ l ∈ C, ∃ p : Nat × Nat, p.1 < n ∧ p.2 < n ∧
        cellAt g p.1 p.2 = Cell.empty ∧
        (l = flatten n p.1 p.2 ∨ l = -flatten n p.1 p.2) := by
  obtain ⟨r, hr, c, hc, k, hcell, hCc⟩ := mem_convert_to_cnf.mp hC
  have hvar : ∀ v ∈ neighborVars g n r c, ∃ p : Nat × Nat, p.1 < n ∧ p.2 < n ∧
      cellAt g p.1 p.2 = Cell.empty ∧ v = flatten n p.1 p.2 := by
    intro v hv
    obtain ⟨p, hp, rfl⟩ := mem_neighborVars hv
    have hb := mem_get_neighbors_lt (mem_unassignedNeighbors hp).1
    exact ⟨p, hb.1, hb.2, (mem_unassignedNeighbors hp).2, rfl⟩
  have hunit : C = {-flatten n r c} →
      (∃ r2, r2 < n ∧ ∃ c2, c2 < n ∧ ∃ k2,
        cellAt g r2 c2 = Cell.num k2 ∧ C = {-flatten n r2 c2}) ∨
        ∀ l ∈ C, ∃ p : Nat × Nat, p.1 < n ∧ p.2 < n ∧
          cellAt g p.1 p.2 = Cell.empty ∧
          (l = flatten n p.1 p.2 ∨ l = -flatten n p.1 p.2) :=
    fun hCe => Or.inl ⟨r, hr, c, hc, k, hcell, hCe⟩
  by_cases hk0 : k = 0
  · subst hk0
    rw [cellClauses_k0, Finset.mem_insert] at hCc
    rcases hCc with rfl | hCc
    · exact hunit rfl
    · obtain ⟨v, hv, rfl⟩ := List.mem_map.mp (List.mem_toFinset.mp hCc)
      refine Or.inr fun l hl => ?_
      rw [Finset.mem_singleton] at hl
      obtain ⟨p, h1, h2, h3, hvp⟩ := hvar v hv
      exact ⟨p, h1, h2, h3, Or.inr (by rw [hl, hvp])⟩
  · by_cases hm0 : (unassignedNeighbors g n r c).length = 0
    · rw [cellClauses_m0 hk0 hm0, Finset.mem_singleton] at hCc
      exact hunit hCc
    · by_cases hmk : (unassignedNeighbors g n r c).length = k
      · rw [cellClauses_mk hk0 hmk, Finset.mem_insert] at hCc
        rcases hCc with rfl | hCc
        · exact hunit rfl
        · obtain ⟨v, hv, rfl⟩ := List.mem_map.mp (List.mem_toFinset.mp hCc)
          refine Or.inr fun l hl => ?_
          rw [Finset.mem_singleton] at hl
          obtain ⟨p, h1, h2, h3, hvp⟩ := hvar v hv
          exact ⟨p, h1, h2, h3, Or.inl (by rw [hl, hvp])⟩
      · by_cases hmgt : (unassignedNeighbors g n r c).length > k
        · rw [cellClauses_mgt hk0 hmgt, Finset.mem_insert, Finset.mem_insert,
            Finset.mem_union] at hCc
          rcases hCc with rfl | rfl | hCc | hCc
          · exact hunit rfl
          · refine Or.inr fun l hl => ?_
            obtain ⟨p, h1, h2, h3, rfl⟩ := hvar l (List.mem_toFinset.mp hl)
            exact ⟨p, h1, h2, h3, Or.inl rfl⟩
          · obtain ⟨s, hs, rfl⟩ := List.mem_map.mp (List.mem_toFinset.mp hCc)
            refine Or.inr fun l hl => ?_
            obtain ⟨v, hv, rfl⟩ := List.mem_map.mp (List.mem_toFinset.mp hl)
            have hvnv : v ∈ neighborVars g n r c :=
              (List.mem_sublistsLen.mp hs).1.subset hv
            obtain ⟨p, h1, h2, h3, rfl⟩ := hvar v hvnv
            exact ⟨p, h1, h2, h3, Or.inr rfl⟩
          · obtain ⟨s, hs, rfl⟩ := List.mem_map.mp (List.mem_toFinset.mp hCc)
            refine Or.inr fun l hl => ?_
            have hvnv : l ∈ neighborVars g n r c :=
              (List.mem_sublistsLen.mp hs).1.subset (List.mem_toFinset.mp hl)
            obtain ⟨p, h1, h2, h3, rfl⟩ := hvar l hvnv
            exact ⟨p, h1, h2, h3, Or.inl rfl⟩
        · have hlt : (unassignedNeighbors g n r c).length < k := by omega
          rw [cellClauses_lt hk0 hm0 hlt, Finset.mem_singleton] at hCc
          exact hunit hCc

/-- C4, amended: the variable of a Number cell does occur in the output,
in exactly one clause — the cell's own negative unit clause `{-v}`; every
other clause mentions only variables of empty cells.  A Number cell with
zero unassigned neighbours contributes exactly that unit clause, not
nothing. -/
theorem numberCell_variable_occurrence
    {g : List (List Cell)} {n r c k : Nat}
    (hr : r < n) (hc : c < n) (hcell : cellAt g r c = Cell.num k) :
    ({-flatten n r c} : Finset Int) ∈ convert_to_cnf g n ∧
    (∀ C ∈ convert_to_cnf g n,
      (∃ l ∈ C, l.natAbs = flattenN n r c) → C = {-flatten n r c}) ∧
    (unassignedNeighbors g n r c = [] →
      cellClauses g n r c k = {({-flatten n r c} : Finset Int)}) := by
  refine ⟨?_, ?_, ?_⟩
  · exact mem_convert_to_cnf.mpr
      ⟨r, hr, c, hc, k, hcell, Finset.mem_insert_self _ _⟩
  · intro C hC ⟨l, hl, hlv⟩
    rcases clause_literal_inventory hC with
      ⟨r2, hr2, c2, hc2, k2, hcell2, rfl⟩ | hlits
    · rw [Finset.mem_singleton] at hl
      subst hl
      rw [Int.natAbs_neg, natAbs_flatten] at hlv
      obtain ⟨he1, he2⟩ := flattenN_inj hc2 hc hlv
      subst he1; subst he2
      rfl
    · exfalso
      obtain ⟨p, h1, h2, h3, hpm⟩ := hlits l hl
      have hpv : l.natAbs = flattenN n p.1 p.2 := by
        rcases hpm with rfl | rfl
        · exact natAbs_flatten n p.1 p.2
        · rw [Int.natAbs_neg]; exact natAbs_flatten n p.1 p.2
      rw [hpv] at hlv
      obtain ⟨he1, he2⟩ := flattenN_inj h2 hc hlv
      rw [he1, he2, hcell] at h3
      cases h3
  · intro hemp
    have hm0 : (unassignedNeighbors g n r c).length = 0 := by
      rw [hemp]; rfl
    have hnv : neighborVars g n r c = [] := by
      rw [neighborVars, hemp]
      rfl
    by_cases hk0 : k = 0
    · subst hk0
      rw [cellClauses_k0, hnv]
      simp
    · exact cellClauses_m0 hk0 hm0

/-- C4, counterexample to the claim as stated: on the 1×1 grid holding a
single `Number 1` cell, the number cell's variable 1 does appear (in its
unit clause `{-1}`), and the zero-neighbour number cell contributes a
clause, so the output is not empty. -/
theorem numberCell_variable_occurrence_cex :
    (¬ ∀ C ∈ convert_to_cnf g1grid 1, ∀ l ∈ C, l.natAbs ≠ flattenN 1 0 0) ∧
      convert_to_cnf g1grid 1 ≠ ∅ := by
  decide

/-- C4, witness: the amended theorem applied to the 1×1 grid: the unit
clause is present and is the sole contribution of the zero-neighbour number
cell. -/
theorem numberCell_variable_occurrence_witness :
    ({-flatten 1 0 0} : Finset Int) ∈ convert_to_cnf g1grid 1 ∧
      cellClauses g1grid 1 0 0 1 = {({-flatten 1 0 0} : Finset Int)} :=
  ⟨(@numberCell_variable_occurrence g1grid 1 0 0 1
      (by decide) (by decide) (by decide)).1,
   (@numberCell_variable_occurrence g1grid 1 0 0 1
      (by decide) (by decide) (by decide)).2.2 (by decide)⟩

/-- C7, amended: the pipeline performs no malformed-puzzle check.  The
encoder runs and is total; for a grid whose single number cell demands more
traps (`n`) than it has unassigned neighbours (`0 < m < n`) it silently
emits only that cell's non-trap unit clause, so the impossible cardinality
is neither reported nor enforced: the all-false assignment still satisfies
the whole output. -/
theorem malformed_puzzle_not_rejected
    {g : List (List Cell)} {n r c k : Nat}
    (hr : r < n) (hc : c < n) (hcell : cellAt g r c = Cell.num k)
    (hother : ∀ r2 < n, ∀ c2 < n, (r2, c2) ≠ (r, c) → cellAt g r2 c2 = Cell.empty)
    (hm0 : (unassignedNeighbors g n r c).length ≠ 0)
    (hmk : (unassignedNeighbors g n r c).length < k) :
    convert_to_cnf g n = {({-flatten n r c} : Finset Int)} ∧
      ∀ a : Nat → Bool, (∀ v, a v = false) →
        ∀ C ∈ convert_to_cnf g n, ClauseSat a C := by
  have hconv : convert_to_cnf g n = {({-flatten n r c} : Finset Int)} := by
    rw [convert_to_cnf_single hr hc hcell hother]
    exact cellClauses_lt (by omega) hm0 hmk
  refine ⟨hconv, fun a ha C hC => ?_⟩
  rw [hconv, Finset.mem_singleton] at hC
  subst hC
  rw [clauseSat_singleton, litSatisfied_neg_of_pos (flatten_pos n r c), ha]
  rfl

/-- C7, counterexample to the claim as stated: the 2×2 grid whose `Number 8`
cell has only 3 unassigned neighbours is malformed in the sense of §7, yet
the encoder runs on it, produces the ordinary clause set `{{-1}}`, and that
set is even satisfied by the assignment with no traps at all — nothing is
rejected or reported. -/
theorem malformed_puzzle_not_rejected_cex :
    cellAt g8grid 0 0 = Cell.num 8 ∧
    0 < (unassignedNeighbors g8grid 2 0 0).length ∧
    (unassignedNeighbors g8grid 2 0 0).length < 8 ∧
    convert_to_cnf g8grid 2 = {({-1} : Finset Int)} ∧
    (∀ C ∈ convert_to_cnf g8grid 2, ClauseSat (fun _ => false) C) := by
  decide

/-- C7, witness: the amended theorem applied to the 2×2 `Number 8` grid. -/
theorem malformed_puzzle_not_rejected_witness :
    convert_to_cnf g8grid 2 = {({-flatten 2 0 0} : Finset Int)} :=
  (@malformed_puzzle_not_rejected g8grid 2 0 0 8
    (by decide) (by decide) (by decide) (by decide) (by decide) (by decide)).1

/-- C10: `unflatten` inverts `flatten` on every in-range position: for
`n ≥ 1`, any `row`, and `col < n`, the round trip returns `(row, col)`. -/
theorem unflatten_flatten {n row col : Nat} (hn : 1 ≤ n) (hcol : col < n) :
    unflatten n (flatten n row col) = ((row : Int), (col : Int)) := by
  unfold unflatten flatten
  have hsub : ((row * n + col + 1 : Nat) : Int) - 1 =
      ((row * n + col : Nat) : Int) := by
    push_cast
    ring
  rw [hsub]
  have hco : row * n + col = n * row + col := by ring
  have hq : (row * n + col) / n = row := by
    rw [hco, Nat.mul_add_div (by omega), Nat.div_eq_of_lt hcol]
    omega
  have hm : (row * n + col) % n = col := by
    rw [hco, Nat.mul_add_mod]
    exact Nat.mod_eq_of_lt hcol
  have hd : ((row * n + col : Nat) : Int).fdiv ((n : Nat) : Int) = (row : Int) := by
    rw [(Int.ofNat_fdiv _ _).symm, hq]
  have he : ((row * n + col : Nat) : Int).emod ((n : Nat) : Int) = (col : Int) := by
    rw [show ((row * n + col : Nat) : Int).emod ((n : Nat) : Int) =
      (((row * n + col) % n : Nat) : Int) from rfl, hm]
  rw [hd, he]

/-- C10, witness: the round trip at `n = 3`, `row = 5`, `col = 2`. -/
theorem unflatten_flatten_witness :
    unflatten 3 (flatten 3 5 2) = ((5 : Int), (2 : Int)) :=
  unflatten_flatten (by decide) (by decide)

/-- C6, amended: when no checked mask satisfies the clause set, the
brute-force solver returns the untouched puzzle and `False` regardless of
whether it stopped at the cap (truncated) or ran out of masks (exhausted);
the return value carries no trace of which happened. -/
theorem bf_solve_failure_uniform
    {clauses : List (List Int)} {puzzle : List (List SCell)} {h w cap : Nat}
    (hfail : ∀ mask < min (2 ^ (emptyCells puzzle h w).length) (max cap 1),
      check_solution clauses (maskAssign (emptyCells puzzle h w) w mask) = false) :
    bf_solve clauses puzzle h w cap = (puzzle, false) := by
  have hnone : (List.range
      (min (2 ^ (emptyCells puzzle h w).length) (max cap 1))).find?
      (fun mask => check_solution clauses (maskAssign (emptyCells puzzle h w) w mask)) =
        none := by
    rw [List.find?_eq_none]
    intro x hx
    rw [hfail x (List.mem_range.mp hx)]
    simp
  unfold bf_solve
  simp only [hnone]

/-- C6, counterexample to the claim as stated: with the unsatisfiable clause
pair `{1}, {-1}` over a 1×3 all-unknown puzzle, a run truncated at cap 2
(2 < 2³ masks) and a run that exhausts all 2³ masks (cap 100) return exactly
the same value: the untouched puzzle with `False`. -/
theorem bf_truncation_indistinguishable_cex :
    bf_solve c6clauses c6puzzle 1 3 2 = bf_solve c6clauses c6puzzle 1 3 100 ∧
    2 < 2 ^ (emptyCells c6puzzle 1 3).length ∧
    2 ^ (emptyCells c6puzzle 1 3).length ≤ 100 ∧
    bf_solve c6clauses c6puzzle 1 3 100 = (c6puzzle, false) := by
  decide

/-- C6, witness: the amended theorem applied to a truncated run (cap 2) and
an exhausting run (cap 2048) of the same unsatisfiable instance. -/
theorem bf_solve_failure_uniform_witness :
    bf_solve c6clauses c6puzzle 1 3 2 = (c6puzzle, false) ∧
      bf_solve c6clauses c6puzzle 1 3 2048 = (c6puzzle, false) :=
  ⟨bf_solve_failure_uniform (by decide), bf_solve_failure_uniform (by decide)⟩

/-- C9: the validator rejects every candidate in which some gem cell has a
trap neighbour, and accepts every candidate satisfying all three rules of
spec §4.5 (exact trap counts at numbers, gem constraints, and the
unreachable-cell rule).  Every grid is a "full" candidate in the three-state
sense: each cell holds a definite token, empty included. -/
theorem validator_sound_complete (h w : Nat) :
    (∀ p s : List (List SCell),
      (∃ i, i < h ∧ ∃ j, j < w ∧ scellAt s i j = SCell.gem ∧
        ∃ q ∈ get_neighbors i j h w, scellAt s q.1 q.2 = SCell.trap) →
      is_valid_solution p s h w = false) ∧
    (∀ p s : List (List SCell),
      NumberRule p s h w → GemRule s h w → UnreachableRule s h w →
      is_valid_solution p s h w = true) := by
  constructor
  · rintro p s ⟨i, hi, j, hj, hgem, q, hq, htrap⟩
    by_contra hval
    rw [Bool.not_eq_false] at hval
    unfold is_valid_solution at hval
    rw [Bool.and_eq_true, Bool.and_eq_true] at hval
    obtain ⟨⟨-, hB⟩, -⟩ := hval
    rw [List.all_eq_true] at hB
    have hBi := hB i (List.mem_range.mpr hi)
    rw [List.all_eq_true] at hBi
    have hBij := hBi j (List.mem_range.mpr hj)
    rw [if_pos hgem, Bool.and_eq_true] at hBij
    obtain ⟨hnt, -⟩ := hBij
    rw [Bool.not_eq_true'] at hnt
    have : (get_neighbors i j h w).any
        (fun p => scellAt s p.1 p.2 = SCell.trap) = true :=
      List.any_eq_true.mpr ⟨q, hq, by simp [htrap]⟩
    rw [this] at hnt
    cases hnt
  · intro p s h1 h2 h3
    unfold is_valid_solution
    rw [Bool.and_eq_true, Bool.and_eq_true]
    refine ⟨⟨?_, ?_⟩, ?_⟩
    · rw [List.all_eq_true]
      intro i hi
      rw [List.all_eq_true]
      intro j hj
      rw [List.mem_range] at hi hj
      have := h1 i hi j hj
      cases hc : scellAt p i j with
      | num k =>
        rw [hc] at this
        simp only [hc]
        exact decide_eq_true this
      | empty => simp [hc]
      | trap => simp [hc]
      | gem => simp [hc]
    · rw [List.all_eq_true]
      intro i hi
      rw [List.all_eq_true]
      intro j hj
      rw [List.mem_range] at hi hj
      by_cases hg : scellAt s i j = SCell.gem
      · rw [if_pos hg, Bool.and_eq_true]
        obtain ⟨hnt, q, hq, hqne⟩ := h2 i hi j hj hg
        constructor
        · rw [Bool.not_eq_true']
          rw [List.any_eq_false]
          intro r hr
          simp only [decide_eq_true_eq]
          exact hnt r hr
        · exact List.any_eq_true.mpr ⟨q, hq, by simp [hqne]⟩
      · rw [if_neg hg]
    · rw [List.all_eq_true]
      intro i hi
      rw [List.all_eq_true]
      intro j hj
      rw [List.mem_range] at hi hj
      rw [Bool.not_eq_true']
      by_cases hall : ∀ q ∈ get_neighbors i j h w, scellAt s q.1 q.2 = SCell.empty
      · have hcell := h3 i hi j hj hall
        have hemp : scellAt s i j = SCell.empty := by
          rcases hcell with hemp | hgem
          · exact hemp
          · obtain ⟨-, q, hq, hqne⟩ := h2 i hi j hj hgem
            exact absurd (hall q hq) hqne
        simp [hemp]
      · have : ((get_neighbors i j h w).all
            fun q => scellAt s q.1 q.2 = SCell.empty) = false := by
          rw [← Bool.not_eq_true, List.all_eq_true]
          intro hcon
          exact hall fun q hq => by
            have := hcon q hq
            simpa using this
        rw [this]
        rfl

/-- C9, witness: the validator rejects the candidate with a gem next to a
trap and accepts the rule-abiding candidate, on the concrete 2×2 puzzle. -/
theorem validator_sound_complete_witness :
    is_valid_solution p9 s9bad 2 2 = false ∧
      is_valid_solution p9 s9good 2 2 = true :=
  ⟨(validator_sound_complete 2 2).1 p9 s9bad
      ⟨1, by decide, 0, by decide, by decide, (0, 1), by decide, by decide⟩,
   (validator_sound_complete 2 2).2 p9 s9good
      (by decide) (by decide) (by decide)⟩

/-! ### Behaviour of the gem-inference pass -/

theorem scellAt_setCell {g : List (List SCell)} {h w i j : Nat}
    (hwf : WFSGrid g h w) (hi : i < h) (hj : j < w) (v : SCell) (r c : Nat) :
    scellAt (setCell g i j v) r c =
      if i = r ∧ j = c then v else scellAt g r c := by
  obtain ⟨hlen, hrows⟩ := hwf
  have hig : i < g.length := by omega
  have hrow : (g[i]?.getD []).length = w := by
    rw [List.getElem?_eq_getElem hig]
    exact hrows _ (List.getElem_mem hig)
  simp only [scellAt, setCell, List.getD_eq_getElem?_getD]
  rw [List.getElem?_set]
  by_cases hir : i = r
  · subst hir
    rw [if_pos rfl, if_pos hig]
    simp only [Option.getD_some]
    rw [List.getElem?_set]
    by_cases hjc : j = c
    · subst hjc
      rw [if_pos rfl, if_pos (by rw [hrow]; exact hj), if_pos (by simp)]
      rfl
    · rw [if_neg hjc, if_neg (by simp [hjc])]
  · rw [if_neg hir, if_neg (by simp [hir])]

theorem WFSGrid_setCell {g : List (List SCell)} {h w i j : Nat}
    (hwf : WFSGrid g h w) (hi : i < h) (v : SCell) :
    WFSGrid (setCell g i j v) h w := by
  obtain ⟨hlen, hrows⟩ := hwf
  have hig : i < g.length := by omega
  refine ⟨by rw [setCell, List.length_set]; exact hlen, ?_⟩
  intro row hrow
  rcases List.mem_or_eq_of_mem_set hrow with hmem | rfl
  · exact hrows row hmem
  · rw [List.length_set]
    rw [List.getD_eq_getElem?_getD, List.getElem?_eq_getElem hig]
    exact hrows _ (List.getElem_mem hig)

theorem gemUpd_refl (g : List (List SCell)) : GemUpd g g :=
  fun _ _ => Or.inl rfl

theorem gemUpd_trap {g0 g : List (List SCell)} (hupd : GemUpd g0 g)
    (i j : Nat) : (scellAt g i j = SCell.trap) ↔ (scellAt g0 i j = SCell.trap) := by
  rcases hupd i j with he | ⟨he0, heg⟩
  · rw [he]
  · rw [he0, heg]
    constructor <;> intro hx <;> cases hx

theorem gemUpd_num {g0 g : List (List SCell)} (hupd : GemUpd g0 g)
    (i j : Nat) :
    (∃ k, scellAt g i j = SCell.num k) ↔ (∃ k, scellAt g0 i j = SCell.num k) := by
  rcases hupd i j with he | ⟨he0, heg⟩
  · rw [he]
  · rw [he0, heg]
    constructor <;> rintro ⟨k, hk⟩ <;> cases hk

theorem gemInferable_congr {g0 g : List (List SCell)} (hupd : GemUpd g0 g)
    (i j h w : Nat) :
    gemInferable g i j h w = gemInferable g0 i j h w := by
  simp only [gemInferable]
  have h1 : ((get_neighbors i j h w).any fun p => scellAt g p.1 p.2 = SCell.trap) =
      ((get_neighbors i j h w).any fun p => scellAt g0 p.1 p.2 = SCell.trap) := by
    rw [Bool.eq_iff_iff, List.any_eq_true, List.any_eq_true]
    constructor <;> rintro ⟨q, hq, hqt⟩ <;> refine ⟨q, hq, ?_⟩ <;>
      simp only [decide_eq_true_eq] at hqt ⊢
    · exact (gemUpd_trap hupd q.1 q.2).mp hqt
    · exact (gemUpd_trap hupd q.1 q.2).mpr hqt
  have h2 : ((get_neighbors i j h w).any fun p =>
        match scellAt g p.1 p.2 with
        | SCell.num _ => true
        | _ => false) =
      ((get_neighbors i j h w).any fun p =>
        match scellAt g0 p.1 p.2 with
        | SCell.num _ => true
        | _ => false) := by
    rw [Bool.eq_iff_iff, List.any_eq_true, List.any_eq_true]
    have hnum : ∀ gg : List (List SCell), ∀ q : Nat × Nat,
        ((match scellAt gg q.1 q.2 with
          | SCell.num _ => true
          | _ => false) = true) ↔ ∃ k, scellAt gg q.1 q.2 = SCell.num k := by
      intro gg q
      cases hc : scellAt gg q.1 q.2 <;> simp [hc]
    constructor <;> rintro ⟨q, hq, hqt⟩ <;> refine ⟨q, hq, ?_⟩
    · exact (hnum g0 q).mpr ((gemUpd_num hupd q.1 q.2).mp ((hnum g q).mp hqt))
    · exact (hnum g q).mpr ((gemUpd_num hupd q.1 q.2).mpr ((hnum g0 q).mp hqt))
  rw [h1, h2]

theorem procCells_eq_foldl (h w : Nat) (ps : List (Nat × Nat))
    (g : List (List SCell)) :
    procCells h w ps g = ps.foldl
      (fun g p =>
        if scellAt g p.1 p.2 = SCell.empty ∧ gemInferable g p.1 p.2 h w then
          setCell g p.1 p.2 SCell.gem
        else g) g := by
  induction ps generalizing g with
  | nil => rfl
  | cons p ps ih =>
    simp only [procCells, List.foldl_cons]
    exact ih _

theorem foldl_flatMap_fold {α β γ : Type} (f : α → List γ)
    (step : β → γ → β) (l : List α) (init : β) :
    (l.flatMap f).foldl step init =
      l.foldl (fun acc x => (f x).foldl step acc) init := by
  induction l generalizing init with
  | nil => rfl
  | cons x l ih =>
    rw [List.flatMap_cons, List.foldl_append, List.foldl_cons]
    exact ih _

theorem inferPass_eq_procCells (h w : Nat) (g : List (List SCell)) :
    inferPass h w g = procCells h w (rowMajor h w) g := by
  rw [procCells_eq_foldl]
  unfold rowMajor
  rw [foldl_flatMap_fold]
  unfold inferPass
  simp only [List.foldl_map]

theorem mem_rowMajor {h w i j : Nat} :
    (i, j) ∈ rowMajor h w ↔ i < h ∧ j < w := by
  unfold rowMajor
  simp only [List.mem_flatMap, List.mem_map, List.mem_range]
  constructor
  · rintro ⟨a, ha, b, hb, hab⟩
    have h1 : a = i := congrArg Prod.fst hab
    have h2 : b = j := congrArg Prod.snd hab
    subst h1; subst h2
    exact ⟨ha, hb⟩
  · rintro ⟨hi, hj⟩
    exact ⟨i, hi, j, hj, rfl⟩

theorem procCells_spec {h w : Nat} {g0 : List (List SCell)}
    (ps : List (Nat × Nat)) :
    ∀ g : List (List SCell), WFSGrid g h w → GemUpd g0 g →
    (∀ p ∈ ps, p.1 < h ∧ p.2 < w) →
    WFSGrid (procCells h w ps g) h w ∧
    GemUpd g0 (procCells h w ps g) ∧
    ∀ i j, scellAt (procCells h w ps g) i j =
      if (i, j) ∈ ps ∧ scellAt g i j = SCell.empty ∧
          gemInferable g0 i j h w then SCell.gem
      else scellAt g i j := by
  induction ps with
  | nil =>
    intro g hwf hupd _
    refine ⟨hwf, hupd, fun i j => ?_⟩
    rw [if_neg (by simp)]
    rfl
  | cons p ps ih =>
    intro g hwf hupd hps
    have hpw := hps p (List.mem_cons_self p ps)
    have hinfer : gemInferable g p.1 p.2 h w = gemInferable g0 p.1 p.2 h w :=
      gemInferable_congr hupd p.1 p.2 h w
    by_cases hcond : scellAt g p.1 p.2 = SCell.empty ∧ gemInferable g p.1 p.2 h w
    · have hstep : procCells h w (p :: ps) g =
          procCells h w ps (setCell g p.1 p.2 SCell.gem) := by
        rw [procCells, if_pos hcond]
      have hwf2 : WFSGrid (setCell g p.1 p.2 SCell.gem) h w :=
        WFSGrid_setCell hwf hpw.1 SCell.gem
      have hupd2 : GemUpd g0 (setCell g p.1 p.2 SCell.gem) := by
        intro i j
        rw [scellAt_setCell hwf hpw.1 hpw.2 _ i j]
        by_cases hpij : p.1 = i ∧ p.2 = j
        · rw [if_pos hpij]
          obtain ⟨h1, h2⟩ := hpij
          subst h1; subst h2
          right
          refine ⟨?_, rfl⟩
          rcases hupd p.1 p.2 with he | ⟨he0, -⟩
          · rw [← he]; exact hcond.1
          · exact he0
        · rw [if_neg hpij]
          exact hupd i j
      obtain ⟨hwf3, hupd3, hspec⟩ := ih (setCell g p.1 p.2 SCell.gem) hwf2 hupd2
        (fun q hq => hps q (List.mem_cons_of_mem p hq))
      rw [hstep]
      refine ⟨hwf3, hupd3, fun i j => ?_⟩
      rw [hspec i j, scellAt_setCell hwf hpw.1 hpw.2 _ i j]
      by_cases hpij : p.1 = i ∧ p.2 = j
      · obtain ⟨h1, h2⟩ := hpij
        subst h1; subst h2
        rw [if_pos (show p.1 = p.1 ∧ p.2 = p.2 from ⟨rfl, rfl⟩), ite_self,
          if_pos (show (p.1, p.2) ∈ p :: ps ∧
              scellAt g p.1 p.2 = SCell.empty ∧
              gemInferable g0 p.1 p.2 h w = true from
            ⟨List.mem_cons_self p ps, hcond.1, by rw [← hinfer]; exact hcond.2⟩)]
      · rw [if_neg hpij]
        refine if_congr ?_ rfl rfl
        simp only [List.mem_cons]
        constructor
        · rintro ⟨hm, hx⟩
          exact ⟨Or.inr hm, hx⟩
        · rintro ⟨hm | hm, hx⟩
          · exact absurd ⟨(congrArg Prod.fst hm).symm, (congrArg Prod.snd hm).symm⟩ hpij
          · exact ⟨hm, hx⟩
    · have hstep : procCells h w (p :: ps) g = procCells h w ps g := by
        rw [procCells, if_neg hcond]
      obtain ⟨hwf3, hupd3, hspec⟩ := ih g hwf hupd
        (fun q hq => hps q (List.mem_cons_of_mem p hq))
      rw [hstep]
      refine ⟨hwf3, hupd3, fun i j => ?_⟩
      rw [hspec i j]
      by_cases hpij : (i, j) = p
      · have h1 : i = p.1 := congrArg Prod.fst hpij
        have h2 : j = p.2 := congrArg Prod.snd hpij
        have hX : ¬(scellAt g i j = SCell.empty ∧ gemInferable g0 i j h w = true) := by
          rintro ⟨he, hi2⟩
          apply hcond
          rw [← h1, ← h2] at hinfer ⊢
          exact ⟨he, by rw [hinfer]; exact hi2⟩
        rw [if_neg (show ¬((i, j) ∈ ps ∧ scellAt g i j = SCell.empty ∧
              gemInferable g0 i j h w = true) from fun hc => hX hc.2),
          if_neg (show ¬((i, j) ∈ p :: ps ∧ scellAt g i j = SCell.empty ∧
              gemInferable g0 i j h w = true) from fun hc => hX hc.2)]
      · refine if_congr ?_ rfl rfl
        simp only [List.mem_cons]
        constructor
        · rintro ⟨hm, hx⟩
          exact ⟨Or.inr hm, hx⟩
        · rintro ⟨hm | hm, hx⟩
          · exact absurd hm hpij
          · exact ⟨hm, hx⟩

theorem inferPass_spec {h w : Nat} {g : List (List SCell)}
    (hwf : WFSGrid g h w) :
    WFSGrid (inferPass h w g) h w ∧
    GemUpd g (inferPass h w g) ∧
    ∀ i j, scellAt (inferPass h w g) i j =
      if i < h ∧ j < w ∧ scellAt g i j = SCell.empty ∧
          gemInferable g i j h w then SCell.gem
      else scellAt g i j := by
  rw [inferPass_eq_procCells]
  obtain ⟨hwf2, hupd2, hspec⟩ := @procCells_spec h w g (rowMajor h w) g hwf
    (gemUpd_refl g) (fun p hp => by
      have := mem_rowMajor.mp (show (p.1, p.2) ∈ rowMajor h w from hp)
      exact this)
  refine ⟨hwf2, hupd2, fun i j => ?_⟩
  rw [hspec i j]
  refine if_congr ?_ rfl rfl
  rw [mem_rowMajor]
  constructor
  · rintro ⟨⟨h1, h2⟩, h3⟩
    exact ⟨h1, h2, h3⟩
  · rintro ⟨h1, h2, h3⟩
    exact ⟨⟨h1, h2⟩, h3⟩

theorem grid_ext {g1 g2 : List (List SCell)} {h w : Nat}
    (hwf1 : WFSGrid g1 h w) (hwf2 : WFSGrid g2 h w)
    (he : ∀ i < h, ∀ j < w, scellAt g1 i j = scellAt g2 i j) : g1 = g2 := by
  obtain ⟨hl1, hr1⟩ := hwf1
  obtain ⟨hl2, hr2⟩ := hwf2
  apply List.ext_getElem (by omega)
  intro i hi1 hi2
  have hrow1 : g1[i].length = w := hr1 _ (List.getElem_mem hi1)
  have hrow2 : g2[i].length = w := hr2 _ (List.getElem_mem hi2)
  apply List.ext_getElem (by omega)
  intro j hj1 hj2
  have h1 : scellAt g1 i j = g1[i][j] := by
    simp only [scellAt, List.getD_eq_getElem?_getD,
      List.getElem?_eq_getElem hi1, Option.getD_some]
    rw [List.getElem?_eq_getElem hj1, Option.getD_some]
  have h2 : scellAt g2 i j = g2[i][j] := by
    simp only [scellAt, List.getD_eq_getElem?_getD,
      List.getElem?_eq_getElem hi2, Option.getD_some]
    rw [List.getElem?_eq_getElem hj2, Option.getD_some]
  rw [← h1, ← h2]
  exact he i (by omega) j (by rw [hrow1] at hj1; exact hj1)

theorem inferPass_idem {h w : Nat} {g : List (List SCell)}
    (hwf : WFSGrid g h w) :
    inferPass h w (inferPass h w g) = inferPass h w g := by
  obtain ⟨hwf1, hupd1, hspec1⟩ := inferPass_spec hwf
  obtain ⟨hwf2, hupd2, hspec2⟩ := inferPass_spec hwf1
  apply grid_ext hwf2 hwf1
  intro i hi j hj
  rw [hspec2 i j]
  have hneg : ¬(i < h ∧ j < w ∧
      scellAt (inferPass h w g) i j = SCell.empty ∧
      gemInferable (inferPass h w g) i j h w = true) := by
    rintro ⟨-, -, hc, hinf2⟩
    have hval := hspec1 i j
    by_cases hcond : i < h ∧ j < w ∧ scellAt g i j = SCell.empty ∧
        gemInferable g i j h w = true
    · rw [if_pos hcond] at hval
      rw [hval] at hc
      cases hc
    · rw [if_neg hcond] at hval
      have hge : scellAt g i j = SCell.empty := by rw [← hval]; exact hc
      have hninf : ¬ gemInferable g i j h w = true :=
        fun hinf => hcond ⟨hi, hj, hge, hinf⟩
      rw [gemInferable_congr hupd1 i j h w] at hinf2
      exact hninf hinf2
  rw [if_neg hneg]

theorem inferGemsAux_fixed {h w : Nat} {g : List (List SCell)}
    (hfix : inferPass h w g = g) :
    ∀ fuel, inferGemsAux h w fuel g = g := by
  intro fuel
  cases fuel with
  | zero => rfl
  | succ fuel =>
    simp only [inferGemsAux]
    rw [if_pos hfix]

theorem infer_gems_eq_inferPass {h w : Nat} {g : List (List SCell)}
    (hwf : WFSGrid g h w) : infer_gems h w g = inferPass h w g := by
  unfold infer_gems
  simp only [inferGemsAux]
  split
  · next heq => exact heq.symm
  · next hne => exact inferGemsAux_fixed (inferPass_idem hwf) _

/-- C8, amended: the `infer_gems` fixed point (i) turns every empty cell
with at least one Number neighbour and no trap neighbour into a gem, (ii)
terminates with no remaining empty cell whose guard (a Number neighbour and
no trap neighbour) holds, (iii) never produces a trap, and (iv) never
changes a cell that has a trap neighbour.  Gem or trap neighbours alone do
not trigger the inference: the guard requires a Number neighbour. -/
theorem infer_gems_spec {h w : Nat} {g : List (List SCell)}
    (hwf : WFSGrid g h w) :
    (∀ i < h, ∀ j < w, scellAt g i j = SCell.empty →
      gemInferable g i j h w = true →
      scellAt (infer_gems h w g) i j = SCell.gem) ∧
    (∀ i < h, ∀ j < w, scellAt (infer_gems h w g) i j = SCell.empty →
      gemInferable (infer_gems h w g) i j h w = false) ∧
    (∀ i j, scellAt (infer_gems h w g) i j = SCell.trap →
      scellAt g i j = SCell.trap) ∧
    (∀ i j, (∃ q ∈ get_neighbors i j h w, scellAt g q.1 q.2 = SCell.trap) →
      scellAt (infer_gems h w g) i j = scellAt g i j) := by
  obtain ⟨hwf1, hupd1, hspec1⟩ := inferPass_spec hwf
  rw [infer_gems_eq_inferPass hwf]
  refine ⟨?_, ?_, ?_, ?_⟩
  · intro i hi j hj hemp hinf
    rw [hspec1 i j, if_pos ⟨hi, hj, hemp, hinf⟩]
  · intro i hi j hj hemp
    have hval := hspec1 i j
    by_cases hcond : i < h ∧ j < w ∧ scellAt g i j = SCell.empty ∧
        gemInferable g i j h w = true
    · rw [if_pos hcond] at hval
      rw [hval] at hemp
      cases hemp
    · rw [if_neg hcond] at hval
      have hge : scellAt g i j = SCell.empty := by rw [← hval]; exact hemp
      have hninf : ¬ gemInferable g i j h w = true :=
        fun hinf => hcond ⟨hi, hj, hge, hinf⟩
      rw [gemInferable_congr hupd1 i j h w]
      exact Bool.eq_false_iff.mpr hninf
  · intro i j htrap
    have hval := hspec1 i j
    by_cases hcond : i < h ∧ j < w ∧ scellAt g i j = SCell.empty ∧
        gemInferable g i j h w = true
    · rw [if_pos hcond] at hval
      rw [hval] at htrap
      cases htrap
    · rw [if_neg hcond] at hval
      rw [← hval]
      exact htrap
  · rintro i j ⟨q, hq, hqt⟩
    have hninf : gemInferable g i j h w = false := by
      simp only [gemInferable]
      have hany : ((get_neighbors i j h w).any
          fun p => scellAt g p.1 p.2 = SCell.trap) = true :=
        List.any_eq_true.mpr ⟨q, hq, by simp [hqt]⟩
      rw [hany]
      simp
    rw [hspec1 i j, if_neg (fun hc => by
      have := hc.2.2.2
      rw [hninf] at this
      cases this)]

/-- C8, counterexample to the claim as stated: at the fixed point of
`infer_gems` on the 1×4 grid `[1, _, _, _]`, cell `(0,2)` is still empty
although it has a resolved (gem) neighbour and no trap neighbour — the
source's rule only fires on Number neighbours, not on resolved cells. -/
theorem infer_gems_resolved_neighbor_cex :
    scellAt (infer_gems 1 4 c8grid) 0 2 = SCell.empty ∧
    ((get_neighbors 0 2 1 4).any fun q =>
      match scellAt (infer_gems 1 4 c8grid) q.1 q.2 with
      | SCell.empty => false
      | _ => true) = true ∧
    ((get_neighbors 0 2 1 4).any fun q =>
      scellAt (infer_gems 1 4 c8grid) q.1 q.2 = SCell.trap) = false := by
  decide

/-- C8, witness: on `[1, _, _, _]` the cell next to the number becomes a
gem, and on `[1, _, T]` the middle cell (which has a trap neighbour) is left
unchanged. -/
theorem infer_gems_spec_witness :
    scellAt (infer_gems 1 4 c8grid) 0 1 = SCell.gem ∧
      scellAt (infer_gems 1 3 c8wgrid) 0 1 = scellAt c8wgrid 0 1 :=
  ⟨(infer_gems_spec (by decide)).1 0 (by decide) 1 (by decide)
      (by decide) (by decide),
   (infer_gems_spec (by decide)).2.2.2 0 1 ⟨(0, 2), by decide, by decide⟩⟩

/-! ### The direct solvers depend only on the clause set, not on the
serialization order of the DIMACS file -/

theorem mem_clauseSetOf {L : List (List Int)} {C : Finset Int} :
    C ∈ clauseSetOf L ↔ ∃ cl ∈ L, cl.toFinset = C := by
  simp [clauseSetOf]

theorem check_solution_iff (L : List (List Int)) (a : Nat → Bool) :
    check_solution L a = true ↔
      ∀ C ∈ clauseSetOf L, ∃ l ∈ C, litSatisfied a l = true := by
  unfold check_solution
  rw [List.all_eq_true]
  constructor
  · intro hall C hC
    obtain ⟨cl, hcl, rfl⟩ := mem_clauseSetOf.mp hC
    have h := hall cl hcl
    rw [List.any_eq_true] at h
    obtain ⟨l, hl, hsat⟩ := h
    exact ⟨l, List.mem_toFinset.mpr hl, hsat⟩
  · intro hset cl hcl
    rw [List.any_eq_true]
    obtain ⟨l, hl, hsat⟩ := hset _ (mem_clauseSetOf.mpr ⟨cl, hcl, rfl⟩)
    exact ⟨l, List.mem_toFinset.mp hl, hsat⟩

theorem check_solution_congr {L1 L2 : List (List Int)}
    (hL : clauseSetOf L1 = clauseSetOf L2) (a : Nat → Bool) :
    check_solution L1 a = check_solution L2 a := by
  rw [Bool.eq_iff_iff, check_solution_iff, check_solution_iff, hL]

theorem find?_congr {α : Type} {p q : α → Bool} (l : List α)
    (hpq : ∀ x, p x = q x) : l.find? p = l.find? q := by
  induction l with
  | nil => rfl
  | cons x l ih =>
    simp only [List.find?]
    rw [hpq x]
    cases hqx : q x
    · exact ih
    · rfl

theorem bf_solve_congr {L1 L2 : List (List Int)}
    (hL : clauseSetOf L1 = clauseSetOf L2) (p : List (List SCell))
    (h w cap : Nat) : bf_solve L1 p h w cap = bf_solve L2 p h w cap := by
  simp only [bf_solve]
  rw [find?_congr _ (fun mask =>
    check_solution_congr hL (maskAssign (emptyCells p h w) w mask))]

theorem is_consistent_iff (hw : Nat) (L : List (List Int))
    (a : Nat → Option Bool) (var : Nat) (val : Bool) :
    is_consistent hw L a var val = true ↔
      ∀ C ∈ clauseSetOf L,
        BTClauseCond hw (fun v => if v = var then some val else a v) var C := by
  unfold is_consistent
  rw [List.all_eq_true]
  constructor
  · intro hall C hC
    obtain ⟨cl, hcl, rfl⟩ := mem_clauseSetOf.mp hC
    have h := hall cl hcl
    intro hexvar
    have hb : (cl.any fun lit => lit.natAbs = var) = true := by
      rw [List.any_eq_true]
      obtain ⟨l, hl, hlv⟩ := hexvar
      exact ⟨l, List.mem_toFinset.mp hl, by simp [hlv]⟩
    rw [if_pos hb] at h
    unfold btClauseOk at h
    rw [Bool.or_eq_true, List.any_eq_true, List.any_eq_true] at h
    rcases h with ⟨l, hl, hand⟩ | ⟨l, hl, hand⟩
    · rw [Bool.and_eq_true] at hand
      exact Or.inl ⟨l, List.mem_toFinset.mpr hl,
        of_decide_eq_true hand.1, hand.2⟩
    · rw [Bool.and_eq_true] at hand
      exact Or.inr ⟨l, List.mem_toFinset.mpr hl,
        of_decide_eq_true hand.1, hand.2⟩
  · intro hset cl hcl
    by_cases hb : (cl.any fun lit => lit.natAbs = var) = true
    · rw [if_pos hb]
      have hcond := hset _ (mem_clauseSetOf.mpr ⟨cl, hcl, rfl⟩)
      rw [List.any_eq_true] at hb
      obtain ⟨l0, hl0, hl0v⟩ := hb
      have hex : ∃ l ∈ cl.toFinset, l.natAbs = var :=
        ⟨l0, List.mem_toFinset.mpr hl0, by simpa using hl0v⟩
      unfold btClauseOk
      rw [Bool.or_eq_true, List.any_eq_true, List.any_eq_true]
      rcases hcond hex with ⟨l, hl, hp, hm⟩ | ⟨l, hl, hp, hm⟩
      · exact Or.inl ⟨l, List.mem_toFinset.mp hl,
          by rw [Bool.and_eq_true]; exact ⟨decide_eq_true hp, hm⟩⟩
      · exact Or.inr ⟨l, List.mem_toFinset.mp hl,
          by rw [Bool.and_eq_true]; exact ⟨decide_eq_true hp, hm⟩⟩
    · rw [if_neg hb]

theorem is_consistent_congr {L1 L2 : List (List Int)}
    (hL : clauseSetOf L1 = clauseSetOf L2) (hw : Nat)
    (a : Nat → Option Bool) (var : Nat) (val : Bool) :
    is_consistent hw L1 a var val = is_consistent hw L2 a var val := by
  rw [Bool.eq_iff_iff, is_consistent_iff, is_consistent_iff, hL]

theorem backtrack_search_congr {L1 L2 : List (List Int)}
    (hL : clauseSetOf L1 = clauseSetOf L2) (hw width : Nat) :
    ∀ (cells : List (Nat × Nat)) (a : Nat → Option Bool),
      backtrack_search hw width L1 cells a =
        backtrack_search hw width L2 cells a := by
  intro cells
  induction cells with
  | nil => intro a; rfl
  | cons p rest ih =>
    intro a
    simp only [backtrack_search]
    rw [is_consistent_congr hL, is_consistent_congr hL, ih, ih]

theorem bt_solve_congr {L1 L2 : List (List Int)}
    (hL : clauseSetOf L1 = clauseSetOf L2) (p : List (List SCell))
    (h w : Nat) : bt_solve L1 p h w = bt_solve L2 p h w := by
  unfold bt_solve
  rw [backtrack_search_congr hL]

/-- C2, amended: on the spec's 3×3 scenario grid, whatever linearization of
the generated clause set the DIMACS file carries, brute force succeeds with
traps at `(0,0), (0,2)` while backtracking succeeds with traps at
`(1,1), (1,2)` — two different layouts, both of whose assignments satisfy
the generated CNF (so the satisfying assignment is not unique) — and the
three-state CNF of `SATSolver.generate_cnf` is unsatisfiable on this grid
(each number cell receives both its one-state clause and all three negative
state units), so the SAT path reports failure.  The brute-force cap is
instantiated at the classical solver's 1,000,000 ceiling; any cap ≥ 4 gives
the same run. -/
theorem scenario_solvers_disagree :
    ∀ L : List (List Int), clauseSetOf L = convert_to_cnf c2grid 3 →
      bf_solve L c2puzzle 3 3 1000000 = (c2bfGrid, true) ∧
      bt_solve L c2puzzle 3 3 = (c2btGrid, true) ∧
      c2bfGrid ≠ c2btGrid ∧
      check_solution L (maskAssign (emptyCells c2puzzle 3 3) 3 3) = true ∧
      check_solution L (fun v => decide (v = 5 ∨ v = 6)) = true ∧
      ∀ a : Nat → Bool, satisfiesList (sat_generate_cnf c2puzzle 3 3) a = false := by
  intro L hL
  have hLc : clauseSetOf L = clauseSetOf c2clauses := by
    rw [hL]
    decide
  refine ⟨?_, ?_, by decide, ?_, ?_, ?_⟩
  · rw [bf_solve_congr hLc]
    decide
  · rw [bt_solve_congr hLc]
    decide
  · rw [check_solution_congr hLc]
    decide
  · rw [check_solution_congr hLc]
    decide
  · intro a
    by_contra hsat
    rw [Bool.not_eq_false] at hsat
    unfold satisfiesList at hsat
    rw [List.all_eq_true] at hsat
    have h1 := hsat [4, 5, 6] (by decide)
    have h2 := hsat [-4] (by decide)
    have h3 := hsat [-5] (by decide)
    have h4 := hsat [-6] (by decide)
    rw [List.any_eq_true] at h1 h2 h3 h4
    have ha4 : a 4 = false := by
      obtain ⟨l, hl, hsl⟩ := h2
      have hl4 : l = (-4 : Int) := by simpa using hl
      subst hl4
      simpa [litSatisfied] using hsl
    have ha5 : a 5 = false := by
      obtain ⟨l, hl, hsl⟩ := h3
      have hl5 : l = (-5 : Int) := by simpa using hl
      subst hl5
      simpa [litSatisfied] using hsl
    have ha6 : a 6 = false := by
      obtain ⟨l, hl, hsl⟩ := h4
      have hl6 : l = (-6 : Int) := by simpa using hl
      subst hl6
      simpa [litSatisfied] using hsl
    obtain ⟨l, hl, hsl⟩ := h1
    have : l = (4 : Int) ∨ l = 5 ∨ l = 6 := by simpa using hl
    rcases this with rfl | rfl | rfl <;>
      simp [litSatisfied, ha4, ha5, ha6] at hsl

/-- C2, counterexample to the claim as stated: the clause set of the
scenario grid (realized by the explicit clause list `c2clauses`) is solved
by brute force and by backtracking into two different trap/gem layouts, so
the three paths cannot all return the same layout and the satisfying
assignment is not unique. -/
theorem scenario_solvers_disagree_cex :
    clauseSetOf c2clauses = convert_to_cnf c2grid 3 ∧
    bf_solve c2clauses c2puzzle 3 3 1000000 = (c2bfGrid, true) ∧
    bt_solve c2clauses c2puzzle 3 3 = (c2btGrid, true) ∧
    c2bfGrid ≠ c2btGrid := by
  exact ⟨by decide, by decide, by decide, by decide⟩

/-- C2, witness: the amended theorem applied to the explicit linearization
`c2clauses` of the generated clause set. -/
theorem scenario_solvers_disagree_witness :
    bf_solve c2clauses c2puzzle 3 3 1000000 = (c2bfGrid, true) ∧
      bt_solve c2clauses c2puzzle 3 3 = (c2btGrid, true) ∧
      c2bfGrid ≠ c2btGrid :=
  ⟨(scenario_solvers_disagree c2clauses (by decide)).1,
   (scenario_solvers_disagree c2clauses (by decide)).2.1,
   (scenario_solvers_disagree c2clauses (by decide)).2.2.1⟩

end GemHunter
